import Mathlib

/-!
# Shared-pointer control block: embedding of `Shared Pointer/main.cpp`

The development follows the three classes of the source file:
`SharedPointerControlBlock<T>`, `SharedPointer<T>` and `WeakPointer<T>`.

Modelling conventions.

* Except in the section on interleaved execution (`Concurrent`), execution is
  by a single thread.  The `std::atomic<int>` counters are plain
  integers, a `load` reads the field, and a compare-exchange issued right after
  the load finds the loaded value and stores the desired one, so the body of
  each retry loop (back-off and reload) is not entered.  Spurious failures of
  the weak compare-exchange are covered separately (`incrementCounterRetry`
  and companions): they do not change the outcome.
* The `int` counters are mathematical integers (`Int`); executions in which a
  counter would leave the range of `int` are outside the embedding.
* Heap objects are named by natural-number addresses.  A control block lives in
  `Memory.blocks` at the index that is its address; `delete this` and
  `delete ptr` are recorded in logs, so that the number of finalizations of
  every object can be counted.
* `assert` is active (the source does not define `NDEBUG`); a failed assertion
  and a thrown `std::runtime_error` are reported as a `Fault`.
* Sequences of calls are run at two levels: `Memory.runOps` applies member
  functions to one control block, `World.run` applies the public operations of
  the handle classes to the handle objects of a program.  Both stop at the
  first fault, and access to a control block after `delete this` is a fault.
-/

namespace SharedPtr

/-- Abnormal ways for a call to end. -/
inductive Fault where
  /-- Thrown `std::runtime_error("Decrement counter error")`. -/
  | runtimeError
  /-- The check `assert(refCount > 0)` failed. -/
  | assertFailed
  /-- Member access through a null `m_controlBlock`. -/
  | nullDereference
  /-- Member access to a control block after `delete this`. -/
  | useAfterFree
  deriving DecidableEq

deriving instance DecidableEq for Except

/-- Fields of `SharedPointerControlBlock<T>`: the payload pointer `ptr` (an
address) and the two counters. -/
structure SharedPointerControlBlock where
  ptr : Nat
  refCount : Int
  weakRefCount : Int
  deriving DecidableEq

/-- Constructor `SharedPointerControlBlock(T* pointer) : ptr(pointer), refCount(1)`;
`weakRefCount` keeps its default member initializer `0`. -/
def SharedPointerControlBlock.ctor (pointer : Nat) : SharedPointerControlBlock :=
  { ptr := pointer, refCount := 1, weakRefCount := 0 }

/-- What one member-function call on a control block did: how it ended
(`result`), the fields afterwards (`block`), and whether it executed
`delete ptr` and `delete this`. -/
structure Outcome (α : Type) where
  result : Except Fault α
  block : SharedPointerControlBlock
  deletedPtr : Bool
  deletedThis : Bool

namespace SharedPointerControlBlock

/-- Member `bool incrementCounter()`. -/
def incrementCounter (cb : SharedPointerControlBlock) : Outcome Bool :=
  let refCountValue := cb.refCount
  if cb.refCount = 0 then
    { result := .ok false, block := cb, deletedPtr := false, deletedThis := false }
  else
    { result := .ok true
      block := { cb with refCount := refCountValue + 1 }
      deletedPtr := false
      deletedThis := false }

/-- Member `bool decrementCounter()`. -/
def decrementCounter (cb : SharedPointerControlBlock) : Outcome Bool :=
  let refCountValue := cb.refCount
  if cb.refCount ≤ 0 then
    { result := .error Fault.runtimeError, block := cb, deletedPtr := false, deletedThis := false }
  else
    let cb1 : SharedPointerControlBlock := { cb with refCount := refCountValue - 1 }
    { result := .ok true
      block := cb1
      deletedPtr := decide (cb1.refCount = 0)
      deletedThis := false }

/-- Member `bool incrementWeakCounter()`. -/
def incrementWeakCounter (cb : SharedPointerControlBlock) : Outcome Bool :=
  let weakCountValue := cb.weakRefCount
  if cb.weakRefCount = 0 then
    { result := .ok false, block := cb, deletedPtr := false, deletedThis := false }
  else
    { result := .ok true
      block := { cb with weakRefCount := weakCountValue + 1 }
      deletedPtr := false
      deletedThis := false }

/-- Member `bool decrementWeakCounter()`.  The source has no `return`
statement in this function and its only caller discards the value, so the
embedding returns `Unit`. -/
def decrementWeakCounter (cb : SharedPointerControlBlock) : Outcome Unit :=
  let weakCountValue := cb.weakRefCount
  let cb1 : SharedPointerControlBlock := { cb with weakRefCount := weakCountValue - 1 }
  { result := .ok ()
    block := cb1
    deletedPtr := false
    deletedThis := decide (cb1.weakRefCount = 0 ∧ cb1.refCount = 0) }

/-- Member `void free()`. -/
def free (cb : SharedPointerControlBlock) : Outcome Unit :=
  if ¬ (cb.refCount > 0) then
    { result := .error Fault.assertFailed, block := cb, deletedPtr := false, deletedThis := false }
  else
    let cb1 : SharedPointerControlBlock := { cb with refCount := cb.refCount - 1 }
    if cb1.refCount = 0 then
      { result := .ok ()
        block := cb1
        deletedPtr := true
        deletedThis := decide (cb1.weakRefCount = 0) }
    else
      { result := .ok (), block := cb1, deletedPtr := false, deletedThis := false }

/-! ### The retry loops

`compare_exchange_weak` may fail although the counter holds the expected
value.  The definitions below run each retry loop with `spurious` such
failures before the successful attempt; `incrementCounterRetry_eq` and its
three companions show that the outcome is that of the member as embedded
above, whatever `spurious` is. -/

/-- The retry loop of `incrementCounter` when `compare_exchange_weak` fails
`spurious` more times before it succeeds.  A failed attempt runs the loop
body: the back-off on `conflictCounter`, the reload of `refCountValue` (so the
next attempt again expects the current `refCount`) and the test for zero. -/
def incrementCounterLoop (cb : SharedPointerControlBlock) : Nat → Nat → Outcome Bool
  | 0, _ =>
    { result := .ok true, block := { cb with refCount := cb.refCount + 1 },
      deletedPtr := false, deletedThis := false }
  | spurious + 1, conflictCounter =>
    let conflictCounter1 := if conflictCounter > 5 then 0 else conflictCounter + 1
    if cb.refCount = 0 then
      { result := .ok false, block := cb, deletedPtr := false, deletedThis := false }
    else incrementCounterLoop cb spurious conflictCounter1

/-- Member `bool incrementCounter()` with `spurious` failed attempts. -/
def incrementCounterRetry (spurious : Nat) (cb : SharedPointerControlBlock) : Outcome Bool :=
  if cb.refCount = 0 then
    { result := .ok false, block := cb, deletedPtr := false, deletedThis := false }
  else incrementCounterLoop cb spurious 0

/-- The retry loop of `decrementCounter`, followed by the code after it. -/
def decrementCounterLoop (cb : SharedPointerControlBlock) : Nat → Nat → Outcome Bool
  | 0, _ =>
    let cb1 : SharedPointerControlBlock := { cb with refCount := cb.refCount - 1 }
    { result := .ok true, block := cb1, deletedPtr := decide (cb1.refCount = 0),
      deletedThis := false }
  | spurious + 1, conflictCounter =>
    let conflictCounter1 := if conflictCounter > 5 then 0 else conflictCounter + 1
    if cb.refCount ≤ 0 then
      { result := .error Fault.runtimeError, block := cb, deletedPtr := false,
        deletedThis := false }
    else decrementCounterLoop cb spurious conflictCounter1

/-- Member `bool decrementCounter()` with `spurious` failed attempts. -/
def decrementCounterRetry (spurious : Nat) (cb : SharedPointerControlBlock) : Outcome Bool :=
  if cb.refCount ≤ 0 then
    { result := .error Fault.runtimeError, block := cb, deletedPtr := false, deletedThis := false }
  else decrementCounterLoop cb spurious 0

/-- The retry loop of `incrementWeakCounter`. -/
def incrementWeakCounterLoop (cb : SharedPointerControlBlock) : Nat → Nat → Outcome Bool
  | 0, _ =>
    { result := .ok true, block := { cb with weakRefCount := cb.weakRefCount + 1 },
      deletedPtr := false, deletedThis := false }
  | spurious + 1, conflictCounter =>
    let conflictCounter1 := if conflictCounter > 5 then 0 else conflictCounter + 1
    if cb.weakRefCount = 0 then
      { result := .ok false, block := cb, deletedPtr := false, deletedThis := false }
    else incrementWeakCounterLoop cb spurious conflictCounter1

/-- Member `bool incrementWeakCounter()` with `spurious` failed attempts. -/
def incrementWeakCounterRetry (spurious : Nat) (cb : SharedPointerControlBlock) :
    Outcome Bool :=
  if cb.weakRefCount = 0 then
    { result := .ok false, block := cb, deletedPtr := false, deletedThis := false }
  else incrementWeakCounterLoop cb spurious 0

/-- The retry loop of `decrementWeakCounter`, followed by the code after it. -/
def decrementWeakCounterLoop (cb : SharedPointerControlBlock) : Nat → Nat → Outcome Unit
  | 0, _ =>
    let cb1 : SharedPointerControlBlock := { cb with weakRefCount := cb.weakRefCount - 1 }
    { result := .ok (), block := cb1, deletedPtr := false,
      deletedThis := decide (cb1.weakRefCount = 0 ∧ cb1.refCount = 0) }
  | spurious + 1, conflictCounter =>
    let conflictCounter1 := if conflictCounter > 5 then 0 else conflictCounter + 1
    decrementWeakCounterLoop cb spurious conflictCounter1

/-- Member `bool decrementWeakCounter()` with `spurious` failed attempts. -/
def decrementWeakCounterRetry (spurious : Nat) (cb : SharedPointerControlBlock) :
    Outcome Unit :=
  decrementWeakCounterLoop cb spurious 0

end SharedPointerControlBlock

/-- The heap.  `blocks[a]` holds the fields of the control block allocated at
address `a` (`new SharedPointerControlBlock` appends), `deletedBlocks` logs
every `delete this` by address, `payloads` counts the payload objects
allocated so far (`new T` returns the next number) and `deletedPayloads` logs
every `delete ptr` by payload address. -/
structure Memory where
  blocks : List SharedPointerControlBlock
  deletedBlocks : List Nat
  payloads : Nat
  deletedPayloads : List Nat
  deriving DecidableEq

namespace Memory

/-- The empty heap. -/
def empty : Memory :=
  { blocks := [], deletedBlocks := [], payloads := 0, deletedPayloads := [] }

/-- Number of times the control block at address `a` has been finalized. -/
def blockFinalizations (m : Memory) (a : Nat) : Nat := m.deletedBlocks.count a

/-- Number of times the payload at address `p` has been finalized. -/
def payloadFinalizations (m : Memory) (p : Nat) : Nat := m.deletedPayloads.count p

/-- Read access `m_controlBlock->...` to the block at address `a`; a block
that has been deleted (or was never allocated) cannot be accessed. -/
def read (m : Memory) (a : Nat) : Except Fault SharedPointerControlBlock :=
  if a ∈ m.deletedBlocks then .error Fault.useAfterFree
  else
    match m.blocks[a]? with
    | none => .error Fault.useAfterFree
    | some cb => .ok cb

/-- Call `m_controlBlock->method()` on the block at address `a`: the fields are
replaced by the ones the method leaves, and its `delete ptr` / `delete this`
are appended to the logs.  A fault of the method ends the execution. -/
def call {α : Type} (m : Memory) (a : Nat)
    (method : SharedPointerControlBlock → Outcome α) : Except Fault (α × Memory) :=
  match m.read a with
  | .error f => .error f
  | .ok cb =>
    let o := method cb
    match o.result with
    | .error f => .error f
    | .ok r =>
      .ok (r, { blocks := m.blocks.set a o.block
                deletedBlocks := if o.deletedThis then m.deletedBlocks ++ [a] else m.deletedBlocks
                payloads := m.payloads
                deletedPayloads :=
                  if o.deletedPtr then m.deletedPayloads ++ [cb.ptr] else m.deletedPayloads })

end Memory

/-- Class `SharedPointer<T>`: its only field, `m_controlBlock`, is `none` for
`nullptr` and `some a` for the address of a control block. -/
structure SharedPointer where
  m_controlBlock : Option Nat
  deriving DecidableEq

namespace SharedPointer

/-- Constructor `SharedPointer(T* pointer)`: allocates a new control block. -/
def ofPointer (m : Memory) (pointer : Nat) : SharedPointer × Memory :=
  ({ m_controlBlock := some m.blocks.length },
   { m with blocks := m.blocks ++ [SharedPointerControlBlock.ctor pointer] })

/-- Constructor `SharedPointer()`. -/
def default : SharedPointer := { m_controlBlock := none }

/-- Conversion `operator bool() const`. -/
def toBool (m : Memory) (self : SharedPointer) : Except Fault Bool :=
  match self.m_controlBlock with
  | none => .ok false
  | some a =>
    match m.read a with
    | .error f => .error f
    | .ok cb => .ok (decide (cb.refCount > 0))

/-- Static member `makeShared(args...)`: `SharedPointer(new T(args...))`. -/
def makeShared (m : Memory) : SharedPointer × Memory :=
  ofPointer { m with payloads := m.payloads + 1 } m.payloads

/-- Copy constructor `SharedPointer(const SharedPointer<T>& other)`; the value
returned by `incrementCounter` is not inspected. -/
def copy (m : Memory) (other : SharedPointer) : Except Fault (SharedPointer × Memory) :=
  match other.m_controlBlock with
  | some a =>
    match m.call a SharedPointerControlBlock.incrementCounter with
    | .error f => .error f
    | .ok (_, m1) => .ok ({ m_controlBlock := some a }, m1)
  | none => .ok ({ m_controlBlock := none }, m)

/-- Copy assignment `operator=(const SharedPointer<T>& other)` for
`this != &other`; returns the new value of `*this`. -/
def assign (m : Memory) (self other : SharedPointer) : Except Fault (SharedPointer × Memory) :=
  let released : Except Fault Memory :=
    match self.m_controlBlock with
    | some a =>
      match m.call a SharedPointerControlBlock.free with
      | .error f => .error f
      | .ok (_, m1) => .ok m1
    | none => .ok m
  match released with
  | .error f => .error f
  | .ok m1 =>
    match other.m_controlBlock with
    | some b =>
      match m1.call b SharedPointerControlBlock.incrementCounter with
      | .error f => .error f
      | .ok (_, m2) => .ok ({ m_controlBlock := some b }, m2)
    | none => .ok (self, m1)

/-- Member `int use_count()`. -/
def use_count (m : Memory) (self : SharedPointer) : Except Fault Int :=
  match self.m_controlBlock with
  | none => .error Fault.nullDereference
  | some a =>
    match m.read a with
    | .error f => .error f
    | .ok cb => .ok cb.refCount

/-- Member `void reset()`; returns the new value of `*this`. -/
def reset (m : Memory) (self : SharedPointer) : Except Fault (SharedPointer × Memory) :=
  match self.m_controlBlock with
  | some a =>
    match m.call a SharedPointerControlBlock.decrementCounter with
    | .error f => .error f
    | .ok (_, m1) => .ok ({ m_controlBlock := none }, m1)
  | none => .ok (self, m)

/-- Destructor `~SharedPointer()`. -/
def dtor (m : Memory) (self : SharedPointer) : Except Fault Memory :=
  match self.m_controlBlock with
  | some a =>
    match m.call a SharedPointerControlBlock.decrementCounter with
    | .error f => .error f
    | .ok (_, m1) => .ok m1
  | none => .ok m

end SharedPointer

/-- Class `WeakPointer<T>`, with the same encoding of `m_controlBlock`. -/
structure WeakPointer where
  m_controlBlock : Option Nat
  deriving DecidableEq

namespace WeakPointer

/-- Constructor `WeakPointer()`. -/
def default : WeakPointer := { m_controlBlock := none }

/-- Constructor `WeakPointer(const SharedPointer<T>& shared)`; the value
returned by `incrementWeakCounter` is not inspected. -/
def ofShared (m : Memory) (shared : SharedPointer) : Except Fault (WeakPointer × Memory) :=
  match shared.m_controlBlock with
  | some a =>
    match m.call a SharedPointerControlBlock.incrementWeakCounter with
    | .error f => .error f
    | .ok (_, m1) => .ok ({ m_controlBlock := some a }, m1)
  | none => .ok ({ m_controlBlock := none }, m)

/-- Assignment `operator=(const SharedPointer<T>& shared)`.  The guard
`this != &shared` compares the addresses of two different objects and is
true; the block referenced before is not released. -/
def assign (m : Memory) (_self : WeakPointer) (shared : SharedPointer) :
    Except Fault (WeakPointer × Memory) :=
  match shared.m_controlBlock with
  | some a =>
    match m.call a SharedPointerControlBlock.incrementWeakCounter with
    | .error f => .error f
    | .ok (_, m1) => .ok ({ m_controlBlock := some a }, m1)
  | none => .ok ({ m_controlBlock := none }, m)

/-- Member `int use_count()`. -/
def use_count (m : Memory) (self : WeakPointer) : Except Fault Int :=
  match self.m_controlBlock with
  | some a =>
    match m.read a with
    | .error f => .error f
    | .ok cb => .ok cb.refCount
  | none => .ok 0

/-- Member `SharedPointer<T> lock()`: on a successful `incrementCounter` the
result is `SharedPointer<T>(m_controlBlock->ptr)`. -/
def lock (m : Memory) (self : WeakPointer) : Except Fault (SharedPointer × Memory) :=
  match self.m_controlBlock with
  | some a =>
    match m.call a SharedPointerControlBlock.incrementCounter with
    | .error f => .error f
    | .ok (true, m1) =>
      match m1.read a with
      | .error f => .error f
      | .ok cb => .ok (SharedPointer.ofPointer m1 cb.ptr)
    | .ok (false, m1) => .ok (SharedPointer.default, m1)
  | none => .ok (SharedPointer.default, m)

/-- Destructor `~WeakPointer()`. -/
def dtor (m : Memory) (self : WeakPointer) : Except Fault Memory :=
  match self.m_controlBlock with
  | some a =>
    match m.call a SharedPointerControlBlock.decrementWeakCounter with
    | .error f => .error f
    | .ok (_, m1) => .ok m1
  | none => .ok m

end WeakPointer

/-- A program state: the heap, the `SharedPointer` objects declared so far and
the `WeakPointer` objects declared so far.  An object is named by its index;
its entry is `none` once its destructor has run. -/
structure World where
  mem : Memory
  strong : List (Option SharedPointer)
  weak : List (Option WeakPointer)
  deriving DecidableEq

/-- The public operations of the two handle classes, applied to the objects of
a `World`.  `i`, `j` index `SharedPointer` objects and `k` indexes
`WeakPointer` objects. -/
inductive Op where
  /-- Declare `auto s = SharedPointer<T>::makeShared()`. -/
  | makeShared
  /-- Declare `SharedPointer<T> s;`. -/
  | defaultShared
  /-- Declare `SharedPointer<T> s(strong[i]);`. -/
  | copyShared (i : Nat)
  /-- Execute `strong[i] = strong[j];`. -/
  | assignShared (i j : Nat)
  /-- Execute `strong[i].reset();`. -/
  | resetShared (i : Nat)
  /-- End the lifetime of `strong[i]` (its destructor runs). -/
  | destroyShared (i : Nat)
  /-- Declare `WeakPointer<T> w;`. -/
  | defaultWeak
  /-- Declare `WeakPointer<T> w(strong[i]);`. -/
  | weakOfShared (i : Nat)
  /-- Execute `weak[k] = strong[i];`. -/
  | assignWeak (k i : Nat)
  /-- Declare `auto s = weak[k].lock();`. -/
  | lock (k : Nat)
  /-- End the lifetime of `weak[k]` (its destructor runs). -/
  | destroyWeak (k : Nat)
  deriving DecidableEq

namespace World

/-- The state before anything is allocated or declared. -/
def empty : World := { mem := Memory.empty, strong := [], weak := [] }

/-- The live `SharedPointer` object with index `i`, if there is one. -/
def strongAt (w : World) (i : Nat) : Option SharedPointer :=
  match w.strong[i]? with
  | some (some h) => some h
  | _ => none

/-- The live `WeakPointer` object with index `k`, if there is one. -/
def weakAt (w : World) (k : Nat) : Option WeakPointer :=
  match w.weak[k]? with
  | some (some h) => some h
  | _ => none

/-- Number of live `SharedPointer` objects whose `m_controlBlock` is `a`. -/
def liveStrong (w : World) (a : Nat) : Nat :=
  w.strong.count (some { m_controlBlock := some a })

/-- Number of live `WeakPointer` objects whose `m_controlBlock` is `a`. -/
def liveWeak (w : World) (a : Nat) : Nat :=
  w.weak.count (some { m_controlBlock := some a })

/-- Execute one operation.  An operation that names an object which is not
alive (never declared, or already destroyed) cannot occur in a program and
leaves the state as it is. -/
def step (w : World) : Op → Except Fault World
  | .makeShared =>
    let r := SharedPointer.makeShared w.mem
    .ok { w with mem := r.2, strong := w.strong ++ [some r.1] }
  | .defaultShared =>
    .ok { w with strong := w.strong ++ [some SharedPointer.default] }
  | .copyShared i =>
    match w.strongAt i with
    | none => .ok w
    | some other =>
      match SharedPointer.copy w.mem other with
      | .error f => .error f
      | .ok (s, m1) => .ok { w with mem := m1, strong := w.strong ++ [some s] }
  | .assignShared i j =>
    match w.strongAt i, w.strongAt j with
    | some self, some other =>
      if i = j then .ok w
      else
        match SharedPointer.assign w.mem self other with
        | .error f => .error f
        | .ok (s, m1) => .ok { w with mem := m1, strong := w.strong.set i (some s) }
    | _, _ => .ok w
  | .resetShared i =>
    match w.strongAt i with
    | none => .ok w
    | some self =>
      match SharedPointer.reset w.mem self with
      | .error f => .error f
      | .ok (s, m1) => .ok { w with mem := m1, strong := w.strong.set i (some s) }
  | .destroyShared i =>
    match w.strongAt i with
    | none => .ok w
    | some self =>
      match SharedPointer.dtor w.mem self with
      | .error f => .error f
      | .ok m1 => .ok { w with mem := m1, strong := w.strong.set i none }
  | .defaultWeak =>
    .ok { w with weak := w.weak ++ [some WeakPointer.default] }
  | .weakOfShared i =>
    match w.strongAt i with
    | none => .ok w
    | some shared =>
      match WeakPointer.ofShared w.mem shared with
      | .error f => .error f
      | .ok (x, m1) => .ok { w with mem := m1, weak := w.weak ++ [some x] }
  | .assignWeak k i =>
    match w.weakAt k, w.strongAt i with
    | some self, some shared =>
      match WeakPointer.assign w.mem self shared with
      | .error f => .error f
      | .ok (x, m1) => .ok { w with mem := m1, weak := w.weak.set k (some x) }
    | _, _ => .ok w
  | .lock k =>
    match w.weakAt k with
    | none => .ok w
    | some self =>
      match WeakPointer.lock w.mem self with
      | .error f => .error f
      | .ok (s, m1) => .ok { w with mem := m1, strong := w.strong ++ [some s] }
  | .destroyWeak k =>
    match w.weakAt k with
    | none => .ok w
    | some self =>
      match WeakPointer.dtor w.mem self with
      | .error f => .error f
      | .ok m1 => .ok { w with mem := m1, weak := w.weak.set k none }

/-- Execute a sequence of operations, stopping at the first fault. -/
def run (w : World) : List Op → Except Fault World
  | [] => .ok w
  | op :: ops =>
    match w.step op with
    | .error f => .error f
    | .ok w1 => w1.run ops

end World

/-- The operations of the strong lifecycle: copy construction, destruction and
`reset` of `SharedPointer` objects. -/
inductive StrongOp where
  | copy (i : Nat)
  | destroy (i : Nat)
  | reset (i : Nat)
  deriving DecidableEq

/-- The strong-lifecycle operations as operations of a `World`. -/
def StrongOp.toOp : StrongOp → Op
  | .copy i => Op.copyShared i
  | .destroy i => Op.destroyShared i
  | .reset i => Op.resetShared i

/-- The state right after `auto s = SharedPointer<T>::makeShared()` in an
empty program: one payload, one control block, one strong handle. -/
def afterMakeShared : World :=
  { mem := { blocks := [SharedPointerControlBlock.ctor 0], deletedBlocks := [],
             payloads := 1, deletedPayloads := [] }
    strong := [some { m_controlBlock := some 0 }]
    weak := [] }

/-- Heap of the strong lifecycle: the single control block made by
`makeShared` with `refCount = n`, no block deleted, and the payload deleted
once exactly when `n = 0`. -/
def strongMem (n : Nat) : Memory :=
  { blocks := [{ ptr := 0, refCount := (n : Int), weakRefCount := 0 }]
    deletedBlocks := []
    payloads := 1
    deletedPayloads := if n = 0 then [0] else [] }

/-- What the specification says one strong-handle object is at a point of a
program: it holds a reference to the control block (`owner`), it is null, or
its lifetime has ended (`destroyed`). -/
inductive HandleState where
  | owner
  | null
  | destroyed
  deriving DecidableEq

/-- The entry of `World.strong` that stands for a handle state, for handles of
the block at address `0`: an owner holds the address of the block, a null
handle holds `nullptr`, a destroyed handle has no entry. -/
def HandleState.toSlot : HandleState → Option SharedPointer
  | .owner => some { m_controlBlock := some 0 }
  | .null => some { m_controlBlock := none }
  | .destroyed => none

/-- The specification's account (spec 4.2) of one strong-lifecycle operation on
the handle objects of one control block, written from the spec and not from
the code: the copy of an owner is one more owner and the copy of a null handle
is null; destruction ends the lifetime of the handle; `reset()` leaves the
handle null.  An operation that names an object which is not alive is
skipped. -/
def specStep (hs : List HandleState) : StrongOp → List HandleState
  | .copy i =>
    match hs[i]? with
    | some .owner => hs ++ [.owner]
    | some .null => hs ++ [.null]
    | _ => hs
  | .destroy i =>
    match hs[i]? with
    | some .owner => hs.set i .destroyed
    | some .null => hs.set i .destroyed
    | _ => hs
  | .reset i =>
    match hs[i]? with
    | some .owner => hs.set i .null
    | some .null => hs.set i .null
    | _ => hs

/-- The specification's account of a sequence of strong-lifecycle operations. -/
def specRun (hs : List HandleState) : List StrongOp → List HandleState
  | [] => hs
  | op :: ops => specRun (specStep hs op) ops

/-- Number of live strong handles that reference the block, in the
specification's account. -/
def owners (hs : List HandleState) : Nat := hs.count HandleState.owner

/-- The state `w` of the code agrees with the specification's account `hs`:
the handle objects are the ones the account lists, and the heap is
`strongMem n` for the number `n` of owners. -/
def SpecInv (hs : List HandleState) (w : World) : Prop :=
  w.mem = strongMem (owners hs) ∧ w.strong = hs.map HandleState.toSlot

/-- The operations that act on one control block: its five counting member
functions, and `lock()` called on a `WeakPointer` that references the block. -/
inductive BlockOp where
  | incrementCounter
  | decrementCounter
  | free
  | incrementWeakCounter
  | decrementWeakCounter
  | lock
  deriving DecidableEq

namespace Memory

/-- Execute one operation on the control block at address `a`; the value the
call returns is dropped. -/
def applyOp (m : Memory) (a : Nat) : BlockOp → Except Fault Memory
  | .incrementCounter =>
    match m.call a SharedPointerControlBlock.incrementCounter with
    | .error f => .error f
    | .ok (_, m1) => .ok m1
  | .decrementCounter =>
    match m.call a SharedPointerControlBlock.decrementCounter with
    | .error f => .error f
    | .ok (_, m1) => .ok m1
  | .free =>
    match m.call a SharedPointerControlBlock.free with
    | .error f => .error f
    | .ok (_, m1) => .ok m1
  | .incrementWeakCounter =>
    match m.call a SharedPointerControlBlock.incrementWeakCounter with
    | .error f => .error f
    | .ok (_, m1) => .ok m1
  | .decrementWeakCounter =>
    match m.call a SharedPointerControlBlock.decrementWeakCounter with
    | .error f => .error f
    | .ok (_, m1) => .ok m1
  | .lock =>
    match WeakPointer.lock m { m_controlBlock := some a } with
    | .error f => .error f
    | .ok (_, m1) => .ok m1

/-- Execute a sequence of operations on the control block at address `a`,
stopping at the first fault. -/
def runOps (m : Memory) (a : Nat) : List BlockOp → Except Fault Memory
  | [] => .ok m
  | op :: ops =>
    match m.applyOp a op with
    | .error f => .error f
    | .ok m1 => m1.runOps a ops

/-- The `refCount` field stored at address `a`, if a block was allocated there. -/
def refCountAt (m : Memory) (a : Nat) : Option Int :=
  match m.blocks[a]? with
  | some cb => some cb.refCount
  | none => none

/-- No control block of the heap has a positive `weakRefCount`. -/
def WeakNonPos (m : Memory) : Prop := ∀ cb ∈ m.blocks, cb.weakRefCount ≤ 0

end Memory

/-- The heap right after `new SharedPointerControlBlock(p)` for the payload at
address `p`: the block sits at address `0` in the constructor state. -/
def ctorMem (p : Nat) : Memory :=
  { blocks := [SharedPointerControlBlock.ctor p], deletedBlocks := [],
    payloads := p + 1, deletedPayloads := [] }

/-- Invariant of the strong counter of the block at address `0` whose payload
is `p`: `refCount` is not negative, and the payload has been finalized once if
`refCount = 0` and not at all otherwise. -/
def StrongCounterInv (p : Nat) (m : Memory) : Prop :=
  ∃ cb, m.blocks[0]? = some cb ∧ cb.ptr = p ∧ 0 ≤ cb.refCount ∧
    m.payloadFinalizations p = (if cb.refCount = 0 then 1 else 0)

/-! ### Interleaved execution of `decrementCounter`

Every access to `refCount` in the source is a sequentially consistent atomic
operation, so an execution by several threads is an interleaving of these
accesses.  A thread running `decrementCounter` is a small machine that
performs one access per step; a schedule says which thread steps next.  The
compare-exchange is taken not to fail spuriously. -/

namespace Concurrent

/-- Points of `decrementCounter` between two accesses to shared data. -/
inductive Pc where
  /-- Before `int refCountValue = refCount.load()` (line 66). -/
  | load
  /-- Before the test `refCount <= 0` (line 67). -/
  | check
  /-- Before the compare-exchange in the loop condition (line 71). -/
  | cas
  /-- Before `refCountValue = refCount.load()` in the loop body (line 76). -/
  | reload
  /-- Before the test `refCount <= 0` in the loop body (line 77). -/
  | recheck
  /-- Before the test `refCount == 0` after the loop (line 81). -/
  | finalTest
  /-- Before `delete ptr` (line 82). -/
  | deletePtr
  /-- After `return true`. -/
  | returned
  /-- After `throw std::runtime_error(...)`. -/
  | thrown
  deriving DecidableEq

/-- The locals of one thread inside `decrementCounter`. -/
structure Thread where
  pc : Pc
  refCountValue : Int
  conflictCounter : Nat
  deriving DecidableEq

/-- What the threads share: the atomic `refCount` of the control block and the
number of times `delete ptr` has been executed. -/
structure Shared where
  refCount : Int
  ptrDeletes : Nat
  deriving DecidableEq

/-- A thread that is about to call `decrementCounter`. -/
def Thread.start : Thread := { pc := Pc.load, refCountValue := 0, conflictCounter := 0 }

/-- One step of a thread inside `decrementCounter`: the next access to
`refCount` or to `ptr`, with the local computation that follows it.  A failed
compare-exchange stores the value it found in `refCountValue` and runs the
back-off on `conflictCounter`. -/
def decrementCounterStep (s : Shared) (t : Thread) : Shared × Thread :=
  match t.pc with
  | .load => (s, { t with pc := Pc.check, refCountValue := s.refCount })
  | .check =>
    if s.refCount ≤ 0 then (s, { t with pc := Pc.thrown })
    else (s, { t with pc := Pc.cas, conflictCounter := 0 })
  | .cas =>
    if s.refCount = t.refCountValue then
      ({ s with refCount := t.refCountValue - 1 }, { t with pc := Pc.finalTest })
    else
      (s, { t with pc := Pc.reload, refCountValue := s.refCount,
                   conflictCounter := if t.conflictCounter > 5 then 0 else t.conflictCounter + 1 })
  | .reload => (s, { t with pc := Pc.recheck, refCountValue := s.refCount })
  | .recheck =>
    if s.refCount ≤ 0 then (s, { t with pc := Pc.thrown })
    else (s, { t with pc := Pc.cas })
  | .finalTest =>
    if s.refCount = 0 then (s, { t with pc := Pc.deletePtr })
    else (s, { t with pc := Pc.returned })
  | .deletePtr => ({ s with ptrDeletes := s.ptrDeletes + 1 }, { t with pc := Pc.returned })
  | .returned => (s, t)
  | .thrown => (s, t)

/-- The shared data and the threads, each inside its own call of
`decrementCounter` on the same control block. -/
structure Config where
  shared : Shared
  threads : List Thread
  deriving DecidableEq

/-- Let thread `tid` take one step. -/
def Config.step (c : Config) (tid : Nat) : Config :=
  match c.threads[tid]? with
  | none => c
  | some t =>
    let r := decrementCounterStep c.shared t
    { shared := r.1, threads := c.threads.set tid r.2 }

/-- Run a schedule: the list of the threads that step, in order. -/
def Config.run (c : Config) : List Nat → Config
  | [] => c
  | tid :: schedule => (c.step tid).run schedule

end Concurrent

/-! ## The retry loops do not change the outcome -/

theorem incrementCounterLoop_eq (cb : SharedPointerControlBlock) (h : cb.refCount ≠ 0)
    (spurious : Nat) : ∀ conflictCounter,
      cb.incrementCounterLoop spurious conflictCounter = cb.incrementCounter := by
  induction spurious with
  | zero =>
    intro c
    simp [SharedPointerControlBlock.incrementCounterLoop,
      SharedPointerControlBlock.incrementCounter, h]
  | succ k ih =>
    intro c
    simp [SharedPointerControlBlock.incrementCounterLoop, h, ih]

/-- Spurious failures of the compare-exchange do not change what
`incrementCounter` does. -/
theorem incrementCounterRetry_eq (spurious : Nat) (cb : SharedPointerControlBlock) :
    cb.incrementCounterRetry spurious = cb.incrementCounter := by
  unfold SharedPointerControlBlock.incrementCounterRetry
  by_cases h : cb.refCount = 0
  · simp [SharedPointerControlBlock.incrementCounter, h]
  · simp [h, incrementCounterLoop_eq cb h]

theorem decrementCounterLoop_eq (cb : SharedPointerControlBlock) (h : ¬ cb.refCount ≤ 0)
    (spurious : Nat) : ∀ conflictCounter,
      cb.decrementCounterLoop spurious conflictCounter = cb.decrementCounter := by
  induction spurious with
  | zero =>
    intro c
    simp [SharedPointerControlBlock.decrementCounterLoop,
      SharedPointerControlBlock.decrementCounter, h]
  | succ k ih =>
    intro c
    simp [SharedPointerControlBlock.decrementCounterLoop, h, ih]

/-- Spurious failures of the compare-exchange do not change what
`decrementCounter` does. -/
theorem decrementCounterRetry_eq (spurious : Nat) (cb : SharedPointerControlBlock) :
    cb.decrementCounterRetry spurious = cb.decrementCounter := by
  unfold SharedPointerControlBlock.decrementCounterRetry
  by_cases h : cb.refCount ≤ 0
  · simp [SharedPointerControlBlock.decrementCounter, h]
  · simp [h, decrementCounterLoop_eq cb h]

theorem incrementWeakCounterLoop_eq (cb : SharedPointerControlBlock)
    (h : cb.weakRefCount ≠ 0) (spurious : Nat) : ∀ conflictCounter,
      cb.incrementWeakCounterLoop spurious conflictCounter = cb.incrementWeakCounter := by
  induction spurious with
  | zero =>
    intro c
    simp [SharedPointerControlBlock.incrementWeakCounterLoop,
      SharedPointerControlBlock.incrementWeakCounter, h]
  | succ k ih =>
    intro c
    simp [SharedPointerControlBlock.incrementWeakCounterLoop, h, ih]

/-- Spurious failures of the compare-exchange do not change what
`incrementWeakCounter` does. -/
theorem incrementWeakCounterRetry_eq (spurious : Nat) (cb : SharedPointerControlBlock) :
    cb.incrementWeakCounterRetry spurious = cb.incrementWeakCounter := by
  unfold SharedPointerControlBlock.incrementWeakCounterRetry
  by_cases h : cb.weakRefCount = 0
  · simp [SharedPointerControlBlock.incrementWeakCounter, h]
  · simp [h, incrementWeakCounterLoop_eq cb h]

theorem decrementWeakCounterLoop_eq (cb : SharedPointerControlBlock) (spurious : Nat) :
    ∀ conflictCounter,
      cb.decrementWeakCounterLoop spurious conflictCounter = cb.decrementWeakCounter := by
  induction spurious with
  | zero =>
    intro c
    simp [SharedPointerControlBlock.decrementWeakCounterLoop,
      SharedPointerControlBlock.decrementWeakCounter]
  | succ k ih =>
    intro c
    simp [SharedPointerControlBlock.decrementWeakCounterLoop, ih]

/-- Spurious failures of the compare-exchange do not change what
`decrementWeakCounter` does. -/
theorem decrementWeakCounterRetry_eq (spurious : Nat) (cb : SharedPointerControlBlock) :
    cb.decrementWeakCounterRetry spurious = cb.decrementWeakCounter :=
  decrementWeakCounterLoop_eq cb spurious 0

/-! ## Lemmas on the strong lifecycle -/

/-- On the heap `strongMem n` with `n > 0`, `incrementCounter` succeeds and
gives `strongMem (n + 1)`. -/
theorem strongMem_call_increment (n : Nat) (hn : 0 < n) :
    (strongMem n).call 0 SharedPointerControlBlock.incrementCounter
      = .ok (true, strongMem (n + 1)) := by
  have h0 : n ≠ 0 := by omega
  have h1 : (n : Int) ≠ 0 := by omega
  simp [strongMem, Memory.call, Memory.read, SharedPointerControlBlock.incrementCounter, h0, h1]

/-- On the heap `strongMem n` with `n > 0`, `decrementCounter` succeeds and
gives `strongMem (n - 1)`, deleting the payload when `n = 1`. -/
theorem strongMem_call_decrement (n : Nat) (hn : 0 < n) :
    (strongMem n).call 0 SharedPointerControlBlock.decrementCounter
      = .ok (true, strongMem (n - 1)) := by
  have h0 : n ≠ 0 := by omega
  have h1 : ¬ ((n : Int) ≤ 0) := by omega
  have h2 : ((n - 1 : Nat) : Int) = (n : Int) - 1 := by omega
  have h3 : ((n : Int) - 1 = 0) ↔ (n - 1 = 0) := by omega
  simp [strongMem, Memory.call, Memory.read, SharedPointerControlBlock.decrementCounter, h0, h1, h2, h3]

/-- A live handle found by `strongAt` is the entry of the handle list. -/
theorem strongAt_eq_some {w : World} {i : Nat} {h : SharedPointer}
    (hs : w.strongAt i = some h) : w.strong[i]? = some (some h) := by
  unfold World.strongAt at hs
  split at hs
  · rename_i x hx
    simp at hs
    subst hs
    exact hx
  · simp at hs

/-- The live handle with index `i` in a state that agrees with the account
`hs`. -/
theorem strongAt_of_spec {hs : List HandleState} {w : World}
    (hstrong : w.strong = hs.map HandleState.toSlot) (i : Nat) :
    w.strongAt i =
      match hs[i]? with
      | some .owner => some { m_controlBlock := some 0 }
      | some .null => some { m_controlBlock := none }
      | _ => none := by
  unfold World.strongAt
  rw [hstrong, List.getElem?_map]
  cases h : hs[i]? with
  | none => simp
  | some x => cases x <;> simp [HandleState.toSlot]

/-- An account that lists an owner has a positive number of owners. -/
theorem owners_pos_of_getElem? {hs : List HandleState} {i : Nat}
    (h : hs[i]? = some HandleState.owner) : 0 < owners hs :=
  List.count_pos_iff.mpr (List.getElem?_mem h)

/-- The number of owners after one entry of the account is replaced. -/
theorem owners_set {hs : List HandleState} {i : Nat} {x y : HandleState}
    (h : hs[i]? = some x) :
    owners (hs.set i y) = owners hs - (if x = .owner then 1 else 0)
      + (if y = .owner then 1 else 0) := by
  rcases List.getElem?_eq_some_iff.mp h with ⟨hlt, hx⟩
  simp [owners, List.count_set, hlt, hx]

/-- Every strong-lifecycle operation runs without a fault on the code and
leaves a state that agrees with the account after the same operation. -/
theorem specInv_step {hs : List HandleState} {w : World} (hw : SpecInv hs w)
    (op : StrongOp) : ∃ w1, w.step op.toOp = .ok w1 ∧ SpecInv (specStep hs op) w1 := by
  obtain ⟨hm, hstrong⟩ := hw
  have hat := strongAt_of_spec hstrong
  cases op with
  | copy i =>
    simp only [StrongOp.toOp, World.step, specStep, hat i]
    cases h : hs[i]? with
    | none => exact ⟨w, rfl, hm, hstrong⟩
    | some x =>
      cases x with
      | owner =>
        have hpos := owners_pos_of_getElem? h
        refine ⟨{ w with mem := strongMem (owners hs + 1),
                         strong := w.strong ++ [some ⟨some 0⟩] }, ?_, ?_, ?_⟩
        · simp [SharedPointer.copy, hm, strongMem_call_increment _ hpos]
        · simp [owners]
        · simp [hstrong, HandleState.toSlot]
      | null =>
        refine ⟨{ w with strong := w.strong ++ [some ⟨none⟩] }, ?_, ?_, ?_⟩
        · simp [SharedPointer.copy]
        · simpa [owners] using hm
        · simp [hstrong, HandleState.toSlot]
      | destroyed => exact ⟨w, rfl, hm, hstrong⟩
  | destroy i =>
    simp only [StrongOp.toOp, World.step, specStep, hat i]
    cases h : hs[i]? with
    | none => exact ⟨w, rfl, hm, hstrong⟩
    | some x =>
      cases x with
      | owner =>
        have hpos := owners_pos_of_getElem? h
        refine ⟨{ w with mem := strongMem (owners hs - 1),
                         strong := w.strong.set i none }, ?_, ?_, ?_⟩
        · simp [SharedPointer.dtor, hm, strongMem_call_decrement _ hpos]
        · simp [owners_set h]
        · simp [hstrong, HandleState.toSlot]
      | null =>
        refine ⟨{ w with strong := w.strong.set i none }, ?_, ?_, ?_⟩
        · simp [SharedPointer.dtor]
        · simpa [owners_set h] using hm
        · simp [hstrong, HandleState.toSlot]
      | destroyed => exact ⟨w, rfl, hm, hstrong⟩
  | reset i =>
    simp only [StrongOp.toOp, World.step, specStep, hat i]
    cases h : hs[i]? with
    | none => exact ⟨w, rfl, hm, hstrong⟩
    | some x =>
      cases x with
      | owner =>
        have hpos := owners_pos_of_getElem? h
        refine ⟨{ w with mem := strongMem (owners hs - 1),
                         strong := w.strong.set i (some ⟨none⟩) }, ?_, ?_, ?_⟩
        · simp [SharedPointer.reset, hm, strongMem_call_decrement _ hpos]
        · simp [owners_set h]
        · simp [hstrong, HandleState.toSlot]
      | null =>
        refine ⟨{ w with strong := w.strong.set i (some ⟨none⟩) }, ?_, ?_, ?_⟩
        · simp [SharedPointer.reset]
        · simpa [owners_set h] using hm
        · simp [hstrong, HandleState.toSlot]
      | destroyed => exact ⟨w, rfl, hm, hstrong⟩

/-- Every sequence of strong-lifecycle operations runs without a fault on the
code and leaves a state that agrees with the account after the same
sequence. -/
theorem specInv_run (ops : List StrongOp) :
    ∀ {hs : List HandleState} {w : World}, SpecInv hs w →
      ∃ w1, w.run (ops.map StrongOp.toOp) = .ok w1 ∧ SpecInv (specRun hs ops) w1 := by
  induction ops with
  | nil => intro hs w hw; exact ⟨w, rfl, hw⟩
  | cons op ops ih =>
    intro hs w hw
    obtain ⟨w1, hstep, hw1⟩ := specInv_step hw op
    obtain ⟨w2, hrun, hw2⟩ := ih hw1
    exact ⟨w2, by simp [World.run, hstep, hrun], hw2⟩

/-- The state right after `makeShared` agrees with the account of one owner. -/
theorem specInv_afterMakeShared : SpecInv [HandleState.owner] afterMakeShared :=
  ⟨by decide, by decide⟩

/-- In the account, no operation brings back an owner once there is none. -/
theorem owners_specStep_of_zero {hs : List HandleState} (h0 : owners hs = 0)
    (op : StrongOp) : owners (specStep hs op) = 0 := by
  have hno : ∀ i : Nat, hs[i]? ≠ some HandleState.owner := by
    intro i hi
    have := owners_pos_of_getElem? hi
    omega
  cases op with
  | copy i =>
    simp only [specStep]
    cases h : hs[i]? with
    | none => simpa using h0
    | some x =>
      cases x with
      | owner => exact absurd h (hno i)
      | null => simpa [owners] using h0
      | destroyed => simpa using h0
  | destroy i =>
    simp only [specStep]
    cases h : hs[i]? with
    | none => simpa using h0
    | some x =>
      cases x with
      | owner => exact absurd h (hno i)
      | null => simp [owners_set h, h0]
      | destroyed => simpa using h0
  | reset i =>
    simp only [specStep]
    cases h : hs[i]? with
    | none => simpa using h0
    | some x =>
      cases x with
      | owner => exact absurd h (hno i)
      | null => simp [owners_set h, h0]
      | destroyed => simpa using h0

/-- In a state that agrees with an account, the payload has been finalized
once if the account has no owner, and not at all otherwise. -/
theorem specInv_payloadFinalizations {hs : List HandleState} {w : World}
    (hw : SpecInv hs w) :
    w.mem.payloadFinalizations 0 = (if owners hs = 0 then 1 else 0) := by
  obtain ⟨hm, _⟩ := hw
  rw [hm]
  by_cases h0 : owners hs = 0 <;> simp [Memory.payloadFinalizations, strongMem, h0]

open SharedPointerControlBlock

/-! ## Lemmas on the heap -/

/-- Writing back the element that is already stored leaves a list unchanged. -/
theorem list_set_self {α : Type} {l : List α} {i : Nat} {x : α} (h : l[i]? = some x) :
    l.set i x = l := by
  apply List.ext_getElem?
  intro n
  by_cases hn : i = n
  · subst hn
    rw [List.getElem?_set_self', h]; rfl
  · rw [List.getElem?_set_ne hn]

/-- A successful read finds a block that is allocated and not deleted. -/
theorem read_eq_ok {m : Memory} {a : Nat} {cb : SharedPointerControlBlock}
    (h : m.read a = .ok cb) : a ∉ m.deletedBlocks ∧ m.blocks[a]? = some cb := by
  unfold Memory.read at h
  by_cases hd : a ∈ m.deletedBlocks
  · simp [hd] at h
  · cases hb : m.blocks[a]? with
    | none => simp [hd, hb] at h
    | some x =>
      simp [hd, hb] at h
      subst h
      exact ⟨hd, rfl⟩

/-- A block that is allocated and not deleted can be read. -/
theorem read_of_getElem? {m : Memory} {a : Nat} {cb : SharedPointerControlBlock}
    (hd : a ∉ m.deletedBlocks) (hb : m.blocks[a]? = some cb) : m.read a = .ok cb := by
  simp [Memory.read, hd, hb]

/-- The heap after a member call that returns normally. -/
theorem call_of_read {α : Type} {m : Memory} {a : Nat} {cb : SharedPointerControlBlock}
    (f : SharedPointerControlBlock → Outcome α) {r : α}
    (h : m.read a = .ok cb) (hr : (f cb).result = .ok r) :
    m.call a f = .ok (r,
      { blocks := m.blocks.set a (f cb).block
        deletedBlocks := if (f cb).deletedThis then m.deletedBlocks ++ [a] else m.deletedBlocks
        payloads := m.payloads
        deletedPayloads :=
          if (f cb).deletedPtr then m.deletedPayloads ++ [cb.ptr] else m.deletedPayloads }) := by
  simp [Memory.call, h, hr]

/-- A member call that returns normally ran on a readable block and left the
heap described by its outcome. -/
theorem call_eq_ok {α : Type} {m m1 : Memory} {a : Nat}
    {f : SharedPointerControlBlock → Outcome α} {r : α}
    (h : m.call a f = .ok (r, m1)) :
    ∃ cb, m.read a = .ok cb ∧ (f cb).result = .ok r ∧
      m1 = { blocks := m.blocks.set a (f cb).block
             deletedBlocks :=
               if (f cb).deletedThis then m.deletedBlocks ++ [a] else m.deletedBlocks
             payloads := m.payloads
             deletedPayloads :=
               if (f cb).deletedPtr then m.deletedPayloads ++ [cb.ptr]
               else m.deletedPayloads } := by
  unfold Memory.call at h
  cases hcb : m.read a with
  | error e => simp [hcb] at h
  | ok cb =>
    cases hr : (f cb).result with
    | error e => simp [hcb, hr] at h
    | ok r1 =>
      simp [hcb, hr] at h
      obtain ⟨h1, h2⟩ := h
      subst h1
      exact ⟨cb, rfl, hr, h2.symm⟩

/-- A member call that changes no field and deletes nothing leaves the heap
as it is. -/
theorem call_noop {α : Type} {m : Memory} {a : Nat} {cb : SharedPointerControlBlock}
    (f : SharedPointerControlBlock → Outcome α) {r : α}
    (h : m.read a = .ok cb) (hr : (f cb).result = .ok r) (hb : (f cb).block = cb)
    (hp : (f cb).deletedPtr = false) (ht : (f cb).deletedThis = false) :
    m.call a f = .ok (r, m) := by
  rw [call_of_read f h hr, hb, hp, ht, list_set_self (read_eq_ok h).2]
  simp


/-- Reading back the block just written at a readable address. -/
theorem read_set {m : Memory} {a : Nat} {cb x : SharedPointerControlBlock}
    (h : m.read a = .ok cb) (dB : List Nat) (hd : a ∉ dB) (n : Nat) (dP : List Nat) :
    Memory.read { blocks := m.blocks.set a x, deletedBlocks := dB, payloads := n,
                  deletedPayloads := dP } a = .ok x := by
  have hb := (read_eq_ok h).2
  have hlt : a < m.blocks.length := by
    rcases List.getElem?_eq_some_iff.mp hb with ⟨hlt, _⟩
    exact hlt
  apply read_of_getElem? hd
  simp [List.getElem?_set_self hlt]

/-- Copy construction from an owner followed by destruction of the copy gives
back the heap. -/
theorem copy_then_dtor {m : Memory} {a : Nat} {cb : SharedPointerControlBlock}
    (h : m.read a = .ok cb) (hn : 1 ≤ cb.refCount) :
    ∃ m1, SharedPointer.copy m ⟨some a⟩ = .ok (⟨some a⟩, m1) ∧
      m1.read a = .ok { cb with refCount := cb.refCount + 1 } ∧
      m1.deletedBlocks = m.deletedBlocks ∧ m1.deletedPayloads = m.deletedPayloads ∧
      SharedPointer.dtor m1 ⟨some a⟩ = .ok m := by
  have h0 : cb.refCount ≠ 0 := by omega
  have hd := (read_eq_ok h).1
  have hinc : (incrementCounter cb) = ⟨.ok true, { cb with refCount := cb.refCount + 1 }, false, false⟩ := by
    simp [incrementCounter, h0]
  have hcall := call_of_read incrementCounter h (r := true) (by rw [hinc])
  rw [hinc] at hcall
  simp only [Bool.false_eq_true, if_false] at hcall
  refine ⟨{ blocks := m.blocks.set a { cb with refCount := cb.refCount + 1 },
            deletedBlocks := m.deletedBlocks, payloads := m.payloads,
            deletedPayloads := m.deletedPayloads },
    by simp [SharedPointer.copy, hcall], read_set h _ hd _ _, rfl, rfl, ?_⟩
  have hr1 := read_set (x := { cb with refCount := cb.refCount + 1 }) h m.deletedBlocks hd m.payloads m.deletedPayloads
  have h1 : ¬ (cb.refCount + 1 ≤ 0) := by omega
  have hdec : decrementCounter { cb with refCount := cb.refCount + 1 } = ⟨.ok true, cb, false, false⟩ := by
    simp [decrementCounter, h1, h0]
  have hcall2 := call_of_read decrementCounter hr1 (r := true) (by rw [hdec])
  rw [hdec] at hcall2
  simp only [Bool.false_eq_true, if_false, List.set_set] at hcall2
  rw [list_set_self (read_eq_ok h).2] at hcall2
  simp [SharedPointer.dtor, hcall2]


/-- Copy assignment between two owners of one block with `refCount ≥ 2`
leaves the heap as it is. -/
theorem assign_same_block {m : Memory} {a : Nat} {cb : SharedPointerControlBlock}
    (h : m.read a = .ok cb) (hn : 2 ≤ cb.refCount) :
    SharedPointer.assign m ⟨some a⟩ ⟨some a⟩ = .ok (⟨some a⟩, m) := by
  have hd := (read_eq_ok h).1
  have h1 : cb.refCount > 0 := by omega
  have h2 : cb.refCount - 1 ≠ 0 := by omega
  have hfree : free cb = ⟨.ok (), { cb with refCount := cb.refCount - 1 }, false, false⟩ := by
    simp [free, h1, h2]
  have hcall := call_of_read free h (r := ()) (by rw [hfree])
  rw [hfree] at hcall
  simp only [Bool.false_eq_true, if_false] at hcall
  have hr1 := read_set (x := { cb with refCount := cb.refCount - 1 }) h m.deletedBlocks hd
    m.payloads m.deletedPayloads
  have hinc : incrementCounter { cb with refCount := cb.refCount - 1 }
      = ⟨.ok true, cb, false, false⟩ := by
    simp [incrementCounter, h2]
  have hcall2 := call_of_read incrementCounter hr1 (r := true) (by rw [hinc])
  rw [hinc] at hcall2
  simp only [Bool.false_eq_true, if_false, List.set_set] at hcall2
  rw [list_set_self (read_eq_ok h).2] at hcall2
  simp [SharedPointer.assign, hcall, hcall2]

/-- At `refCount = 0`, `lock()` returns the null handle and leaves the heap
as it is. -/
theorem lock_denied {m : Memory} {a : Nat} {cb : SharedPointerControlBlock}
    (h : m.read a = .ok cb) (h0 : cb.refCount = 0) :
    WeakPointer.lock m ⟨some a⟩ = .ok (⟨none⟩, m) := by
  have hinc : incrementCounter cb = ⟨.ok false, cb, false, false⟩ := by
    simp [incrementCounter, h0]
  have hcall := call_noop incrementCounter h (r := false) (by rw [hinc]) (by rw [hinc])
    (by rw [hinc]) (by rw [hinc])
  simp [WeakPointer.lock, hcall, SharedPointer.default]

/-- The heap after `reset()` of an owner. -/
theorem reset_owner {m : Memory} {a : Nat} {cb : SharedPointerControlBlock}
    (h : m.read a = .ok cb) (hn : 0 < cb.refCount) :
    SharedPointer.reset m ⟨some a⟩ = .ok (⟨none⟩,
      { blocks := m.blocks.set a { cb with refCount := cb.refCount - 1 },
        deletedBlocks := m.deletedBlocks, payloads := m.payloads,
        deletedPayloads :=
          if cb.refCount - 1 = 0 then m.deletedPayloads ++ [cb.ptr] else m.deletedPayloads }) := by
  have h1 : ¬ cb.refCount ≤ 0 := by omega
  have hdec : decrementCounter cb = ⟨.ok true, { cb with refCount := cb.refCount - 1 },
      decide (cb.refCount - 1 = 0), false⟩ := by
    simp [decrementCounter, h1]
  have hcall := call_of_read decrementCounter h (r := true) (by rw [hdec])
  rw [hdec] at hcall
  simp only [Bool.false_eq_true, if_false, decide_eq_true_eq] at hcall
  simp [SharedPointer.reset, hcall]

/-- What `reset()` and the destructors do on owners and on null handles.  For a
strong handle on a
live block at address `a` with `refCount = n ≥ 1`, `reset()` returns the null
handle and leaves the heap with `refCount = n - 1` at `a` and every other
field of every block as it was; on the heap it leaves, a second `reset()` and
the destructor of the now null handle change nothing.  On every heap, `reset()`
and the destructor of a null strong handle and the destructor of a null weak
handle leave the heap as it is. -/
theorem reset_owner_and_null_noop (m : Memory) (a : Nat) (cb : SharedPointerControlBlock)
    (h : m.read a = .ok cb) (hn : 0 < cb.refCount) :
    ∃ m1, SharedPointer.reset m { m_controlBlock := some a } = .ok (SharedPointer.default, m1) ∧
      m1.blocks = m.blocks.set a { cb with refCount := cb.refCount - 1 } ∧
      SharedPointer.reset m1 SharedPointer.default = .ok (SharedPointer.default, m1) ∧
      SharedPointer.dtor m1 SharedPointer.default = .ok m1 ∧
      ∀ m2 : Memory,
        SharedPointer.reset m2 SharedPointer.default = .ok (SharedPointer.default, m2) ∧
        SharedPointer.dtor m2 SharedPointer.default = .ok m2 ∧
        WeakPointer.dtor m2 WeakPointer.default = .ok m2 := by
  refine ⟨_, reset_owner h hn, rfl, ?_, ?_, ?_⟩
  · simp [SharedPointer.reset, SharedPointer.default]
  · simp [SharedPointer.dtor, SharedPointer.default]
  · intro m2
    simp [SharedPointer.reset, SharedPointer.dtor, WeakPointer.dtor, SharedPointer.default,
      WeakPointer.default]

/-! ## The weak counter is never positive -/

/-- A member call preserves `WeakNonPos` when the member does on one block. -/
theorem weakNonPos_call {α : Type} {m m1 : Memory} {a : Nat}
    {f : SharedPointerControlBlock → Outcome α} {r : α}
    (hf : ∀ cb, cb.weakRefCount ≤ 0 → (f cb).block.weakRefCount ≤ 0)
    (hm : m.WeakNonPos) (h : m.call a f = .ok (r, m1)) : m1.WeakNonPos := by
  obtain ⟨cb, hread, _, hm1⟩ := call_eq_ok h
  subst hm1
  intro x hx
  have hcb : cb ∈ m.blocks := List.getElem?_mem (read_eq_ok hread).2
  rcases List.mem_or_eq_of_mem_set hx with h1 | h1
  · exact hm x h1
  · rw [h1]; exact hf cb (hm cb hcb)

theorem weakNonPos_incrementCounter (cb : SharedPointerControlBlock)
    (h : cb.weakRefCount ≤ 0) : (incrementCounter cb).block.weakRefCount ≤ 0 := by
  unfold incrementCounter; split <;> simpa using h

theorem weakNonPos_decrementCounter (cb : SharedPointerControlBlock)
    (h : cb.weakRefCount ≤ 0) : (decrementCounter cb).block.weakRefCount ≤ 0 := by
  unfold decrementCounter; split <;> simpa using h

theorem weakNonPos_free (cb : SharedPointerControlBlock)
    (h : cb.weakRefCount ≤ 0) : (free cb).block.weakRefCount ≤ 0 := by
  unfold free
  by_cases h1 : cb.refCount > 0
  · by_cases h2 : cb.refCount - 1 = 0 <;> simpa [h1, h2] using h
  · simpa [h1] using h

theorem weakNonPos_incrementWeakCounter (cb : SharedPointerControlBlock)
    (h : cb.weakRefCount ≤ 0) : (incrementWeakCounter cb).block.weakRefCount ≤ 0 := by
  unfold incrementWeakCounter
  split
  · simpa using h
  · rename_i h0
    simp only
    omega

theorem weakNonPos_decrementWeakCounter (cb : SharedPointerControlBlock)
    (h : cb.weakRefCount ≤ 0) : (decrementWeakCounter cb).block.weakRefCount ≤ 0 := by
  unfold decrementWeakCounter
  simp only
  omega

theorem weakNonPos_ofPointer {m : Memory} (hm : m.WeakNonPos) (p : Nat) :
    (SharedPointer.ofPointer m p).2.WeakNonPos := by
  intro x hx
  simp [SharedPointer.ofPointer] at hx
  rcases hx with hx | hx
  · exact hm x hx
  · rw [hx]; simp [SharedPointerControlBlock.ctor]

theorem weakNonPos_lock {m m1 : Memory} {self : WeakPointer} {s : SharedPointer}
    (hm : m.WeakNonPos) (h : WeakPointer.lock m self = .ok (s, m1)) : m1.WeakNonPos := by
  unfold WeakPointer.lock at h
  cases hs : self.m_controlBlock with
  | none =>
    simp [hs] at h
    rw [← h.2]; exact hm
  | some a =>
    simp only [hs] at h
    cases hc : m.call a incrementCounter with
    | error e => simp [hc] at h
    | ok r =>
      obtain ⟨b, m2⟩ := r
      have hm2 := weakNonPos_call weakNonPos_incrementCounter hm hc
      cases b with
      | false =>
        simp [hc] at h
        rw [← h.2]; exact hm2
      | true =>
        simp only [hc] at h
        cases hr : m2.read a with
        | error e => simp [hr] at h
        | ok cb =>
          simp [hr] at h
          have := weakNonPos_ofPointer hm2 cb.ptr
          rw [h] at this
          exact this


theorem weakNonPos_copy {m m1 : Memory} {other s : SharedPointer}
    (hm : m.WeakNonPos) (h : SharedPointer.copy m other = .ok (s, m1)) : m1.WeakNonPos := by
  unfold SharedPointer.copy at h
  cases ho : other.m_controlBlock with
  | none =>
    simp [ho] at h
    rw [← h.2]; exact hm
  | some a =>
    simp only [ho] at h
    cases hc : m.call a incrementCounter with
    | error e => simp [hc] at h
    | ok r =>
      obtain ⟨b, m2⟩ := r
      simp [hc] at h
      rw [← h.2]
      exact weakNonPos_call weakNonPos_incrementCounter hm hc

theorem weakNonPos_assign {m m1 : Memory} {self other s : SharedPointer}
    (hm : m.WeakNonPos) (h : SharedPointer.assign m self other = .ok (s, m1)) :
    m1.WeakNonPos := by
  unfold SharedPointer.assign at h
  have key : ∀ m2 : Memory, m2.WeakNonPos → m2 = m1 ∨
      (∃ b x, m2.call b incrementCounter = .ok (x, m1)) → m1.WeakNonPos := by
    intro m2 hm2 h2
    rcases h2 with h2 | ⟨b, x, h2⟩
    · rw [← h2]; exact hm2
    · exact weakNonPos_call weakNonPos_incrementCounter hm2 h2
  cases hs : self.m_controlBlock with
  | none =>
    cases ho : other.m_controlBlock with
    | none =>
      simp [hs, ho] at h
      exact key m hm (Or.inl h.2)
    | some b =>
      cases hc : m.call b incrementCounter with
      | error e => simp [hs, ho, hc] at h
      | ok r =>
        obtain ⟨x, m3⟩ := r
        simp [hs, ho, hc] at h
        exact key m hm (Or.inr ⟨b, x, by rw [hc, h.2]⟩)
  | some a =>
    cases hf : m.call a free with
    | error e => simp [hs, hf] at h
    | ok r0 =>
      obtain ⟨u, m2⟩ := r0
      have hm2 := weakNonPos_call weakNonPos_free hm hf
      cases ho : other.m_controlBlock with
      | none =>
        simp [hs, hf, ho] at h
        exact key m2 hm2 (Or.inl h.2)
      | some b =>
        cases hc : m2.call b incrementCounter with
        | error e => simp [hs, hf, ho, hc] at h
        | ok r =>
          obtain ⟨x, m3⟩ := r
          simp [hs, hf, ho, hc] at h
          exact key m2 hm2 (Or.inr ⟨b, x, by rw [hc, h.2]⟩)

theorem weakNonPos_reset {m m1 : Memory} {self s : SharedPointer}
    (hm : m.WeakNonPos) (h : SharedPointer.reset m self = .ok (s, m1)) : m1.WeakNonPos := by
  unfold SharedPointer.reset at h
  cases hs : self.m_controlBlock with
  | none =>
    simp [hs] at h
    rw [← h.2]; exact hm
  | some a =>
    simp only [hs] at h
    cases hc : m.call a decrementCounter with
    | error e => simp [hc] at h
    | ok r =>
      obtain ⟨b, m2⟩ := r
      simp [hc] at h
      rw [← h.2]
      exact weakNonPos_call weakNonPos_decrementCounter hm hc

theorem weakNonPos_dtor {m m1 : Memory} {self : SharedPointer}
    (hm : m.WeakNonPos) (h : SharedPointer.dtor m self = .ok m1) : m1.WeakNonPos := by
  unfold SharedPointer.dtor at h
  cases hs : self.m_controlBlock with
  | none =>
    simp [hs] at h
    rw [← h]; exact hm
  | some a =>
    simp only [hs] at h
    cases hc : m.call a decrementCounter with
    | error e => simp [hc] at h
    | ok r =>
      obtain ⟨b, m2⟩ := r
      simp [hc] at h
      rw [← h]
      exact weakNonPos_call weakNonPos_decrementCounter hm hc

theorem weakNonPos_ofShared {m m1 : Memory} {shared : SharedPointer} {x : WeakPointer}
    (hm : m.WeakNonPos) (h : WeakPointer.ofShared m shared = .ok (x, m1)) :
    m1.WeakNonPos := by
  unfold WeakPointer.ofShared at h
  cases hs : shared.m_controlBlock with
  | none =>
    simp [hs] at h
    rw [← h.2]; exact hm
  | some a =>
    simp only [hs] at h
    cases hc : m.call a incrementWeakCounter with
    | error e => simp [hc] at h
    | ok r =>
      obtain ⟨b, m2⟩ := r
      simp [hc] at h
      rw [← h.2]
      exact weakNonPos_call weakNonPos_incrementWeakCounter hm hc

theorem weakNonPos_weakAssign {m m1 : Memory} {self x : WeakPointer} {shared : SharedPointer}
    (hm : m.WeakNonPos) (h : WeakPointer.assign m self shared = .ok (x, m1)) :
    m1.WeakNonPos := by
  unfold WeakPointer.assign at h
  cases hs : shared.m_controlBlock with
  | none =>
    simp [hs] at h
    rw [← h.2]; exact hm
  | some a =>
    simp only [hs] at h
    cases hc : m.call a incrementWeakCounter with
    | error e => simp [hc] at h
    | ok r =>
      obtain ⟨b, m2⟩ := r
      simp [hc] at h
      rw [← h.2]
      exact weakNonPos_call weakNonPos_incrementWeakCounter hm hc

theorem weakNonPos_weakDtor {m m1 : Memory} {self : WeakPointer}
    (hm : m.WeakNonPos) (h : WeakPointer.dtor m self = .ok m1) : m1.WeakNonPos := by
  unfold WeakPointer.dtor at h
  cases hs : self.m_controlBlock with
  | none =>
    simp [hs] at h
    rw [← h]; exact hm
  | some a =>
    simp only [hs] at h
    cases hc : m.call a decrementWeakCounter with
    | error e => simp [hc] at h
    | ok r =>
      obtain ⟨b, m2⟩ := r
      simp [hc] at h
      rw [← h]
      exact weakNonPos_call weakNonPos_decrementWeakCounter hm hc


/-- Every public operation preserves `WeakNonPos`. -/
theorem weakNonPos_step {w w1 : World} {op : Op}
    (hw : w.mem.WeakNonPos) (h : w.step op = .ok w1) : w1.mem.WeakNonPos := by
  cases op with
  | makeShared =>
    simp [World.step] at h
    rw [← h]
    exact weakNonPos_ofPointer (m := { w.mem with payloads := w.mem.payloads + 1 }) hw _
  | defaultShared =>
    simp [World.step] at h
    rw [← h]; exact hw
  | copyShared i =>
    simp only [World.step] at h
    cases hs : w.strongAt i with
    | none => simp [hs] at h; rw [← h]; exact hw
    | some other =>
      cases hc : SharedPointer.copy w.mem other with
      | error e => simp [hs, hc] at h
      | ok r =>
        obtain ⟨s, m1⟩ := r
        simp [hs, hc] at h
        rw [← h]
        exact weakNonPos_copy hw hc
  | assignShared i j =>
    simp only [World.step] at h
    cases hi : w.strongAt i with
    | none => simp [hi] at h; rw [← h]; exact hw
    | some self =>
      cases hj : w.strongAt j with
      | none => simp [hi, hj] at h; rw [← h]; exact hw
      | some other =>
        by_cases hij : i = j
        · simp [hi, hj, hij] at h
          rw [← h]; exact hw
        · cases hc : SharedPointer.assign w.mem self other with
          | error e => simp [hi, hj, hij, hc] at h
          | ok r =>
            obtain ⟨s, m1⟩ := r
            simp [hi, hj, hij, hc] at h
            rw [← h]
            exact weakNonPos_assign hw hc
  | resetShared i =>
    simp only [World.step] at h
    cases hs : w.strongAt i with
    | none => simp [hs] at h; rw [← h]; exact hw
    | some self =>
      cases hc : SharedPointer.reset w.mem self with
      | error e => simp [hs, hc] at h
      | ok r =>
        obtain ⟨s, m1⟩ := r
        simp [hs, hc] at h
        rw [← h]
        exact weakNonPos_reset hw hc
  | destroyShared i =>
    simp only [World.step] at h
    cases hs : w.strongAt i with
    | none => simp [hs] at h; rw [← h]; exact hw
    | some self =>
      cases hc : SharedPointer.dtor w.mem self with
      | error e => simp [hs, hc] at h
      | ok m1 =>
        simp [hs, hc] at h
        rw [← h]
        exact weakNonPos_dtor hw hc
  | defaultWeak =>
    simp [World.step] at h
    rw [← h]; exact hw
  | weakOfShared i =>
    simp only [World.step] at h
    cases hs : w.strongAt i with
    | none => simp [hs] at h; rw [← h]; exact hw
    | some shared =>
      cases hc : WeakPointer.ofShared w.mem shared with
      | error e => simp [hs, hc] at h
      | ok r =>
        obtain ⟨x, m1⟩ := r
        simp [hs, hc] at h
        rw [← h]
        exact weakNonPos_ofShared hw hc
  | assignWeak k i =>
    simp only [World.step] at h
    cases hk : w.weakAt k with
    | none => simp [hk] at h; rw [← h]; exact hw
    | some self =>
      cases hi : w.strongAt i with
      | none => simp [hk, hi] at h; rw [← h]; exact hw
      | some shared =>
        cases hc : WeakPointer.assign w.mem self shared with
        | error e => simp [hk, hi, hc] at h
        | ok r =>
          obtain ⟨x, m1⟩ := r
          simp [hk, hi, hc] at h
          rw [← h]
          exact weakNonPos_weakAssign hw hc
  | lock k =>
    simp only [World.step] at h
    cases hk : w.weakAt k with
    | none => simp [hk] at h; rw [← h]; exact hw
    | some self =>
      cases hc : WeakPointer.lock w.mem self with
      | error e => simp [hk, hc] at h
      | ok r =>
        obtain ⟨s, m1⟩ := r
        simp [hk, hc] at h
        rw [← h]
        exact weakNonPos_lock hw hc
  | destroyWeak k =>
    simp only [World.step] at h
    cases hk : w.weakAt k with
    | none => simp [hk] at h; rw [← h]; exact hw
    | some self =>
      cases hc : WeakPointer.dtor w.mem self with
      | error e => simp [hk, hc] at h
      | ok m1 =>
        simp [hk, hc] at h
        rw [← h]
        exact weakNonPos_weakDtor hw hc

/-- Every sequence of public operations preserves `WeakNonPos`. -/
theorem weakNonPos_run (ops : List Op) :
    ∀ {w w1 : World}, w.mem.WeakNonPos → w.run ops = .ok w1 → w1.mem.WeakNonPos := by
  induction ops with
  | nil =>
    intro w w1 hw h
    simp [World.run] at h
    rw [← h]; exact hw
  | cons op ops ih =>
    intro w w1 hw h
    simp only [World.run] at h
    cases hs : w.step op with
    | error e => simp [hs] at h
    | ok w2 =>
      simp only [hs] at h
      exact ih (weakNonPos_step hw hs) h

/-- Every block operation preserves `WeakNonPos`. -/
theorem weakNonPos_applyOp {m m1 : Memory} {a : Nat} {op : BlockOp}
    (hm : m.WeakNonPos) (h : m.applyOp a op = .ok m1) : m1.WeakNonPos := by
  cases op with
  | incrementCounter =>
    simp only [Memory.applyOp] at h
    cases hc : m.call a incrementCounter with
    | error e => simp [hc] at h
    | ok r =>
      obtain ⟨b, m2⟩ := r
      simp [hc] at h
      rw [← h]; exact weakNonPos_call weakNonPos_incrementCounter hm hc
  | decrementCounter =>
    simp only [Memory.applyOp] at h
    cases hc : m.call a decrementCounter with
    | error e => simp [hc] at h
    | ok r =>
      obtain ⟨b, m2⟩ := r
      simp [hc] at h
      rw [← h]; exact weakNonPos_call weakNonPos_decrementCounter hm hc
  | free =>
    simp only [Memory.applyOp] at h
    cases hc : m.call a free with
    | error e => simp [hc] at h
    | ok r =>
      obtain ⟨b, m2⟩ := r
      simp [hc] at h
      rw [← h]; exact weakNonPos_call weakNonPos_free hm hc
  | incrementWeakCounter =>
    simp only [Memory.applyOp] at h
    cases hc : m.call a incrementWeakCounter with
    | error e => simp [hc] at h
    | ok r =>
      obtain ⟨b, m2⟩ := r
      simp [hc] at h
      rw [← h]; exact weakNonPos_call weakNonPos_incrementWeakCounter hm hc
  | decrementWeakCounter =>
    simp only [Memory.applyOp] at h
    cases hc : m.call a decrementWeakCounter with
    | error e => simp [hc] at h
    | ok r =>
      obtain ⟨b, m2⟩ := r
      simp [hc] at h
      rw [← h]; exact weakNonPos_call weakNonPos_decrementWeakCounter hm hc
  | lock =>
    simp only [Memory.applyOp] at h
    cases hc : WeakPointer.lock m ⟨some a⟩ with
    | error e => simp [hc] at h
    | ok r =>
      obtain ⟨s, m2⟩ := r
      simp [hc] at h
      rw [← h]; exact weakNonPos_lock hm hc

/-- Every sequence of block operations preserves `WeakNonPos`. -/
theorem weakNonPos_runOps (ops : List BlockOp) (a : Nat) :
    ∀ {m m1 : Memory}, m.WeakNonPos → m.runOps a ops = .ok m1 → m1.WeakNonPos := by
  induction ops with
  | nil =>
    intro m m1 hm h
    simp [Memory.runOps] at h
    rw [← h]; exact hm
  | cons op ops ih =>
    intro m m1 hm h
    simp only [Memory.runOps] at h
    cases hs : m.applyOp a op with
    | error e => simp [hs] at h
    | ok m2 =>
      simp only [hs] at h
      exact ih (weakNonPos_applyOp hm hs) h

/-! ## A zero strong counter stays zero -/

theorem refCountAt_eq_some {m : Memory} {a : Nat} {n : Int} (h : m.refCountAt a = some n) :
    ∃ cb, m.blocks[a]? = some cb ∧ cb.refCount = n := by
  unfold Memory.refCountAt at h
  cases hb : m.blocks[a]? with
  | none => simp [hb] at h
  | some cb => simp [hb] at h; exact ⟨cb, rfl, h⟩

theorem refCountAt_call {α : Type} {m m1 : Memory} {a : Nat}
    {f : SharedPointerControlBlock → Outcome α} {r : α}
    (h : m.call a f = .ok (r, m1)) :
    ∃ cb, m.blocks[a]? = some cb ∧ (f cb).result = .ok r ∧
      m1.refCountAt a = some (f cb).block.refCount := by
  obtain ⟨cb, hread, hr, hm1⟩ := call_eq_ok h
  have hb := (read_eq_ok hread).2
  have hlt : a < m.blocks.length := by
    rcases List.getElem?_eq_some_iff.mp hb with ⟨hlt, _⟩
    exact hlt
  refine ⟨cb, hb, hr, ?_⟩
  subst hm1
  simp [Memory.refCountAt, List.getElem?_set_self hlt]

theorem refCount_zero_call {α : Type} {m m1 : Memory} {a : Nat}
    {f : SharedPointerControlBlock → Outcome α} {r : α}
    (hf : ∀ cb r, cb.refCount = 0 → (f cb).result = .ok r → (f cb).block.refCount = 0)
    (h0 : m.refCountAt a = some 0) (h : m.call a f = .ok (r, m1)) :
    m1.refCountAt a = some 0 := by
  obtain ⟨cb, hb, hr, hm1⟩ := refCountAt_call h
  obtain ⟨cb0, hb0, hz⟩ := refCountAt_eq_some h0
  rw [hb] at hb0
  simp at hb0
  subst hb0
  rw [hm1, hf cb r hz hr]

/-- A block operation that runs without a fault keeps a zero `refCount` zero. -/
theorem refCount_zero_applyOp {m m1 : Memory} {a : Nat} {op : BlockOp}
    (h0 : m.refCountAt a = some 0) (h : m.applyOp a op = .ok m1) :
    m1.refCountAt a = some 0 := by
  cases op with
  | incrementCounter =>
    simp only [Memory.applyOp] at h
    cases hc : m.call a incrementCounter with
    | error e => simp [hc] at h
    | ok r =>
      obtain ⟨b, m2⟩ := r
      simp [hc] at h
      rw [← h]
      exact refCount_zero_call (fun cb r hz _ => by simp [incrementCounter, hz]) h0 hc
  | decrementCounter =>
    simp only [Memory.applyOp] at h
    cases hc : m.call a decrementCounter with
    | error e => simp [hc] at h
    | ok r =>
      obtain ⟨b, m2⟩ := r
      simp [hc] at h
      rw [← h]
      exact refCount_zero_call (fun cb r hz hr => by simp [decrementCounter, hz] at hr) h0 hc
  | free =>
    simp only [Memory.applyOp] at h
    cases hc : m.call a free with
    | error e => simp [hc] at h
    | ok r =>
      obtain ⟨b, m2⟩ := r
      simp [hc] at h
      rw [← h]
      exact refCount_zero_call (fun cb r hz hr => by simp [free, hz] at hr) h0 hc
  | incrementWeakCounter =>
    simp only [Memory.applyOp] at h
    cases hc : m.call a incrementWeakCounter with
    | error e => simp [hc] at h
    | ok r =>
      obtain ⟨b, m2⟩ := r
      simp [hc] at h
      rw [← h]
      refine refCount_zero_call (fun cb r hz _ => ?_) h0 hc
      unfold incrementWeakCounter
      split <;> simpa using hz
  | decrementWeakCounter =>
    simp only [Memory.applyOp] at h
    cases hc : m.call a decrementWeakCounter with
    | error e => simp [hc] at h
    | ok r =>
      obtain ⟨b, m2⟩ := r
      simp [hc] at h
      rw [← h]
      exact refCount_zero_call (fun cb r hz _ => by simpa [decrementWeakCounter] using hz) h0 hc
  | lock =>
    simp only [Memory.applyOp] at h
    obtain ⟨cb, hb, hz⟩ := refCountAt_eq_some h0
    by_cases hd : a ∈ m.deletedBlocks
    · simp [WeakPointer.lock, Memory.call, Memory.read, hd] at h
    · have hread := read_of_getElem? hd hb
      rw [lock_denied hread hz] at h
      simp at h
      rw [← h]; exact h0

/-- A sequence of block operations that runs without a fault keeps a zero
`refCount` zero. -/
theorem refCount_zero_runOps (ops : List BlockOp) (a : Nat) :
    ∀ {m m1 : Memory}, m.refCountAt a = some 0 → m.runOps a ops = .ok m1 →
      m1.refCountAt a = some 0 := by
  induction ops with
  | nil =>
    intro m m1 hm h
    simp [Memory.runOps] at h
    rw [← h]; exact hm
  | cons op ops ih =>
    intro m m1 hm h
    simp only [Memory.runOps] at h
    cases hs : m.applyOp a op with
    | error e => simp [hs] at h
    | ok m2 =>
      simp only [hs] at h
      exact ih (refCount_zero_applyOp hm hs) h

/-! ## The strong-counter invariant -/

/-- A member call preserves the strong-counter invariant when the member
keeps `ptr`, keeps `refCount` non-negative, and deletes the payload exactly
when it brings `refCount` to zero. -/
theorem strongCounterInv_call {α : Type} {p : Nat} {m m1 : Memory}
    {f : SharedPointerControlBlock → Outcome α} {r : α}
    (hf : ∀ cb r, 0 ≤ cb.refCount → (f cb).result = .ok r →
      (f cb).block.ptr = cb.ptr ∧ 0 ≤ (f cb).block.refCount ∧
      ((f cb).deletedPtr = true → cb.refCount ≠ 0 ∧ (f cb).block.refCount = 0) ∧
      ((f cb).deletedPtr = false → ((f cb).block.refCount = 0 ↔ cb.refCount = 0)))
    (hm : StrongCounterInv p m) (h : m.call 0 f = .ok (r, m1)) :
    StrongCounterInv p m1 := by
  obtain ⟨cb, hread, hr, hm1⟩ := call_eq_ok h
  obtain ⟨cb0, hb0, hp, hnn, hfin⟩ := hm
  have hb := (read_eq_ok hread).2
  rw [hb] at hb0
  simp at hb0
  subst hb0
  have hlt : 0 < m.blocks.length := by
    rcases List.getElem?_eq_some_iff.mp hb with ⟨hlt, _⟩
    exact hlt
  obtain ⟨h1, h2, h3, h4⟩ := hf cb r hnn hr
  refine ⟨(f cb).block, ?_, by rw [h1, hp], h2, ?_⟩
  · subst hm1
    simp [List.getElem?_set_self hlt]
  · subst hm1
    unfold Memory.payloadFinalizations at hfin ⊢
    cases hdp : (f cb).deletedPtr with
    | true =>
      obtain ⟨h5, h6⟩ := h3 hdp
      simp [h5] at hfin
      simp [h6, hp, hfin]
    | false =>
      have h5 := h4 hdp
      simp only [Bool.false_eq_true, if_false]
      rw [hfin]
      by_cases hz : cb.refCount = 0
      · simp [hz, h5.mpr hz]
      · have : (f cb).block.refCount ≠ 0 := fun hc => hz (h5.mp hc)
        simp [hz, this]

theorem strongCounterInv_incrementCounter (cb : SharedPointerControlBlock) (r : Bool)
    (hnn : 0 ≤ cb.refCount) (_hr : (incrementCounter cb).result = .ok r) :
    (incrementCounter cb).block.ptr = cb.ptr ∧ 0 ≤ (incrementCounter cb).block.refCount ∧
    ((incrementCounter cb).deletedPtr = true →
      cb.refCount ≠ 0 ∧ (incrementCounter cb).block.refCount = 0) ∧
    ((incrementCounter cb).deletedPtr = false →
      ((incrementCounter cb).block.refCount = 0 ↔ cb.refCount = 0)) := by
  by_cases hz : cb.refCount = 0
  · simp [incrementCounter, hz]
  · simp [incrementCounter, hz]
    constructor <;> omega

theorem strongCounterInv_decrementCounter (cb : SharedPointerControlBlock) (r : Bool)
    (_hnn : 0 ≤ cb.refCount) (hr : (decrementCounter cb).result = .ok r) :
    (decrementCounter cb).block.ptr = cb.ptr ∧ 0 ≤ (decrementCounter cb).block.refCount ∧
    ((decrementCounter cb).deletedPtr = true →
      cb.refCount ≠ 0 ∧ (decrementCounter cb).block.refCount = 0) ∧
    ((decrementCounter cb).deletedPtr = false →
      ((decrementCounter cb).block.refCount = 0 ↔ cb.refCount = 0)) := by
  by_cases hz : cb.refCount ≤ 0
  · simp [decrementCounter, hz] at hr
  · simp [decrementCounter, hz]
    refine ⟨by omega, ?_, ?_⟩
    · intro h1; exact ⟨by omega, h1⟩
    · intro h1; constructor <;> intro h2 <;> omega

theorem strongCounterInv_free (cb : SharedPointerControlBlock) (r : Unit)
    (_hnn : 0 ≤ cb.refCount) (hr : (free cb).result = .ok r) :
    (free cb).block.ptr = cb.ptr ∧ 0 ≤ (free cb).block.refCount ∧
    ((free cb).deletedPtr = true → cb.refCount ≠ 0 ∧ (free cb).block.refCount = 0) ∧
    ((free cb).deletedPtr = false → ((free cb).block.refCount = 0 ↔ cb.refCount = 0)) := by
  by_cases hz : cb.refCount > 0
  · by_cases h1 : cb.refCount - 1 = 0
    · simp [free, hz, h1]; omega
    · simp [free, hz, h1]
      constructor <;> omega
  · simp [free, hz] at hr

theorem strongCounterInv_incrementWeakCounter (cb : SharedPointerControlBlock) (r : Bool)
    (hnn : 0 ≤ cb.refCount) (_hr : (incrementWeakCounter cb).result = .ok r) :
    (incrementWeakCounter cb).block.ptr = cb.ptr ∧
    0 ≤ (incrementWeakCounter cb).block.refCount ∧
    ((incrementWeakCounter cb).deletedPtr = true →
      cb.refCount ≠ 0 ∧ (incrementWeakCounter cb).block.refCount = 0) ∧
    ((incrementWeakCounter cb).deletedPtr = false →
      ((incrementWeakCounter cb).block.refCount = 0 ↔ cb.refCount = 0)) := by
  by_cases hz : cb.weakRefCount = 0 <;> simp [incrementWeakCounter, hz, hnn]

theorem strongCounterInv_decrementWeakCounter (cb : SharedPointerControlBlock) (r : Unit)
    (hnn : 0 ≤ cb.refCount) (_hr : (decrementWeakCounter cb).result = .ok r) :
    (decrementWeakCounter cb).block.ptr = cb.ptr ∧
    0 ≤ (decrementWeakCounter cb).block.refCount ∧
    ((decrementWeakCounter cb).deletedPtr = true →
      cb.refCount ≠ 0 ∧ (decrementWeakCounter cb).block.refCount = 0) ∧
    ((decrementWeakCounter cb).deletedPtr = false →
      ((decrementWeakCounter cb).block.refCount = 0 ↔ cb.refCount = 0)) := by
  simp [decrementWeakCounter, hnn]

theorem strongCounterInv_ofPointer {p : Nat} {m : Memory} (hm : StrongCounterInv p m)
    (q : Nat) : StrongCounterInv p (SharedPointer.ofPointer m q).2 := by
  obtain ⟨cb, hb, hp, hnn, hfin⟩ := hm
  have hlt : 0 < m.blocks.length := by
    rcases List.getElem?_eq_some_iff.mp hb with ⟨hlt, _⟩
    exact hlt
  refine ⟨cb, ?_, hp, hnn, ?_⟩
  · simp [SharedPointer.ofPointer, List.getElem?_append_left hlt, hb]
  · simpa [SharedPointer.ofPointer, Memory.payloadFinalizations] using hfin

/-- Every block operation preserves the strong-counter invariant. -/
theorem strongCounterInv_applyOp {p : Nat} {m m1 : Memory} {op : BlockOp}
    (hm : StrongCounterInv p m) (h : m.applyOp 0 op = .ok m1) : StrongCounterInv p m1 := by
  cases op with
  | incrementCounter =>
    simp only [Memory.applyOp] at h
    cases hc : m.call 0 incrementCounter with
    | error e => simp [hc] at h
    | ok r =>
      obtain ⟨b, m2⟩ := r
      simp [hc] at h
      rw [← h]; exact strongCounterInv_call strongCounterInv_incrementCounter hm hc
  | decrementCounter =>
    simp only [Memory.applyOp] at h
    cases hc : m.call 0 decrementCounter with
    | error e => simp [hc] at h
    | ok r =>
      obtain ⟨b, m2⟩ := r
      simp [hc] at h
      rw [← h]; exact strongCounterInv_call strongCounterInv_decrementCounter hm hc
  | free =>
    simp only [Memory.applyOp] at h
    cases hc : m.call 0 free with
    | error e => simp [hc] at h
    | ok r =>
      obtain ⟨b, m2⟩ := r
      simp [hc] at h
      rw [← h]; exact strongCounterInv_call strongCounterInv_free hm hc
  | incrementWeakCounter =>
    simp only [Memory.applyOp] at h
    cases hc : m.call 0 incrementWeakCounter with
    | error e => simp [hc] at h
    | ok r =>
      obtain ⟨b, m2⟩ := r
      simp [hc] at h
      rw [← h]; exact strongCounterInv_call strongCounterInv_incrementWeakCounter hm hc
  | decrementWeakCounter =>
    simp only [Memory.applyOp] at h
    cases hc : m.call 0 decrementWeakCounter with
    | error e => simp [hc] at h
    | ok r =>
      obtain ⟨b, m2⟩ := r
      simp [hc] at h
      rw [← h]; exact strongCounterInv_call strongCounterInv_decrementWeakCounter hm hc
  | lock =>
    simp only [Memory.applyOp, WeakPointer.lock] at h
    cases hc : m.call 0 incrementCounter with
    | error e => simp [hc] at h
    | ok r =>
      obtain ⟨b, m2⟩ := r
      have hm2 := strongCounterInv_call strongCounterInv_incrementCounter hm hc
      cases b with
      | false =>
        simp [hc] at h
        rw [← h]; exact hm2
      | true =>
        simp only [hc] at h
        cases hr : m2.read 0 with
        | error e => simp [hr] at h
        | ok cb =>
          simp [hr] at h
          rw [← h]
          exact strongCounterInv_ofPointer hm2 cb.ptr

/-- Every sequence of block operations preserves the strong-counter
invariant. -/
theorem strongCounterInv_runOps {p : Nat} (ops : List BlockOp) :
    ∀ {m m1 : Memory}, StrongCounterInv p m → m.runOps 0 ops = .ok m1 →
      StrongCounterInv p m1 := by
  induction ops with
  | nil =>
    intro m m1 hm h
    simp [Memory.runOps] at h
    rw [← h]; exact hm
  | cons op ops ih =>
    intro m m1 hm h
    simp only [Memory.runOps] at h
    cases hs : m.applyOp 0 op with
    | error e => simp [hs] at h
    | ok m2 =>
      simp only [hs] at h
      exact ih (strongCounterInv_applyOp hm hs) h

/-- The strong-counter invariant holds in the constructor state. -/
theorem strongCounterInv_ctorMem (p : Nat) : StrongCounterInv p (ctorMem p) :=
  ⟨SharedPointerControlBlock.ctor p, rfl, rfl, by simp [SharedPointerControlBlock.ctor],
    by simp [SharedPointerControlBlock.ctor, ctorMem, Memory.payloadFinalizations]⟩

/-! ## One thread alone runs `decrementCounter` as embedded -/

/-- A thread that runs `decrementCounter` with no other thread stepping leaves
`refCount` and the number of payload deletions that `decrementCounter` as
embedded above gives, and ends returned or thrown as it does. -/
theorem decrementCounter_alone (cb : SharedPointerControlBlock) (d : Nat) :
    (Concurrent.Config.run
        { shared := ⟨cb.refCount, d⟩, threads := [Concurrent.Thread.start] }
        [0, 0, 0, 0, 0]).shared
      = ⟨(decrementCounter cb).block.refCount,
         d + (if (decrementCounter cb).deletedPtr then 1 else 0)⟩ ∧
    ((decrementCounter cb).result = .ok true →
      (Concurrent.Config.run
          { shared := ⟨cb.refCount, d⟩, threads := [Concurrent.Thread.start] }
          [0, 0, 0, 0, 0]).threads.map (fun t => t.pc) = [Concurrent.Pc.returned]) ∧
    ((decrementCounter cb).result = .error Fault.runtimeError →
      (Concurrent.Config.run
          { shared := ⟨cb.refCount, d⟩, threads := [Concurrent.Thread.start] }
          [0, 0, 0, 0, 0]).threads.map (fun t => t.pc) = [Concurrent.Pc.thrown]) := by
  by_cases h : cb.refCount ≤ 0
  · simp [Concurrent.Config.run, Concurrent.Config.step, Concurrent.decrementCounterStep,
      Concurrent.Thread.start, decrementCounter, h]
  · by_cases h1 : cb.refCount - 1 = 0
    · simp [Concurrent.Config.run, Concurrent.Config.step, Concurrent.decrementCounterStep,
        Concurrent.Thread.start, decrementCounter, h, h1]
    · simp [Concurrent.Config.run, Concurrent.Config.step, Concurrent.decrementCounterStep,
        Concurrent.Thread.start, decrementCounter, h, h1]

/-! ## The claims -/

/-- Claim C1, evaluated on the code: for a weak handle on a block at address
`0` with `refCount = n + 1`, `lock()` does raise that block's `refCount` to
`n + 2`, but the handle it returns references a control block newly allocated
at address `1` (with `refCount = 1` and the same payload pointer), not the
block of the weak handle. -/
theorem C1_lock_wraps_payload_in_new_block (p n : Nat) (k : Int) :
    WeakPointer.lock
        { blocks := [{ ptr := p, refCount := (n : Int) + 1, weakRefCount := k }]
          deletedBlocks := [], payloads := p + 1, deletedPayloads := [] }
        { m_controlBlock := some 0 }
      = .ok ({ m_controlBlock := some 1 },
             { blocks := [{ ptr := p, refCount := (n : Int) + 2, weakRefCount := k },
                          { ptr := p, refCount := 1, weakRefCount := 0 }]
               deletedBlocks := [], payloads := p + 1, deletedPayloads := [] }) := by
  have h1 : (n : Int) + 1 ≠ 0 := by omega
  have h2 : (n : Int) + 1 + 1 = (n : Int) + 2 := by omega
  simp [WeakPointer.lock, Memory.call, Memory.read, incrementCounter,
    SharedPointer.ofPointer, SharedPointerControlBlock.ctor, h1, h2]

/-- Claim C2, evaluated on the code (Scenario C).  After `s = makeShared()`,
`w = WeakPointer(s)`, `s2 = w.lock()` the handle `s2` is non-null and block `0`
has `refCount = 2`; after destroying `s` and `s2` the payload `0` has been
finalized once, and a further `w.lock()` returns a handle on a new block `2`
whose boolean test is true and whose `ptr` is the finalized payload. -/
theorem C2_scenarioC_lock_after_finalization :
    World.empty.run [Op.makeShared, Op.weakOfShared 0, Op.lock 0]
      = .ok { mem := { blocks := [⟨0, 2, 0⟩, ⟨0, 1, 0⟩], deletedBlocks := [],
                       payloads := 1, deletedPayloads := [] }
              strong := [some ⟨some 0⟩, some ⟨some 1⟩]
              weak := [some ⟨some 0⟩] } ∧
    SharedPointer.toBool
        { blocks := [⟨0, 2, 0⟩, ⟨0, 1, 0⟩], deletedBlocks := [], payloads := 1,
          deletedPayloads := [] }
        ⟨some 1⟩ = .ok true ∧
    SharedPointer.use_count
        { blocks := [⟨0, 2, 0⟩, ⟨0, 1, 0⟩], deletedBlocks := [], payloads := 1,
          deletedPayloads := [] }
        ⟨some 0⟩ = .ok 2 ∧
    World.empty.run [Op.makeShared, Op.weakOfShared 0, Op.lock 0,
        Op.destroyShared 0, Op.destroyShared 1, Op.lock 0]
      = .ok { mem := { blocks := [⟨0, 2, 0⟩, ⟨0, 0, 0⟩, ⟨0, 1, 0⟩], deletedBlocks := [],
                       payloads := 1, deletedPayloads := [0] }
              strong := [none, none, some ⟨some 2⟩]
              weak := [some ⟨some 0⟩] } ∧
    SharedPointer.toBool
        { blocks := [⟨0, 2, 0⟩, ⟨0, 0, 0⟩, ⟨0, 1, 0⟩], deletedBlocks := [],
          payloads := 1, deletedPayloads := [0] }
        ⟨some 2⟩ = .ok true := by
  decide

/-- Claim C3 (P1, strong lifecycle).  Let `hs` be the specification's account
of the handle objects after a sequence `ops` of copy constructions,
destructions and resets started with the one owner made by `makeShared`.  The
code runs `ops` without a fault and reaches a state `w` whose handle objects
are exactly those of `hs` (owners hold block `0`, reset handles are null,
destroyed handles are gone), whose `refCount` is the number of owners in `hs`,
and in which the payload has been finalized `0` times if `hs` has an owner and
exactly `1` time if it has none.  Every further operation `op` also runs
without a fault, again leaves the handle objects of the account, and finalizes
the payload (once) exactly when it takes the number of owners from positive to
zero; otherwise it finalizes nothing. -/
theorem C3_strong_lifecycle (ops : List StrongOp) :
    ∃ w, afterMakeShared.run (ops.map StrongOp.toOp) = .ok w ∧
      w.strong = (specRun [HandleState.owner] ops).map HandleState.toSlot ∧
      w.mem.blocks = [{ ptr := 0, refCount := (owners (specRun [HandleState.owner] ops) : Int),
                        weakRefCount := 0 }] ∧
      w.mem.payloadFinalizations 0 =
        (if owners (specRun [HandleState.owner] ops) = 0 then 1 else 0) ∧
      ∀ op : StrongOp, ∃ w1, w.step op.toOp = .ok w1 ∧
        w1.strong = (specStep (specRun [HandleState.owner] ops) op).map HandleState.toSlot ∧
        w1.mem.payloadFinalizations 0 = w.mem.payloadFinalizations 0 +
          (if 0 < owners (specRun [HandleState.owner] ops) ∧
              owners (specStep (specRun [HandleState.owner] ops) op) = 0 then 1 else 0) := by
  obtain ⟨w, hrun, hw⟩ := specInv_run ops specInv_afterMakeShared
  refine ⟨w, hrun, hw.2, ?_, specInv_payloadFinalizations hw, ?_⟩
  · rw [hw.1]; rfl
  · intro op
    obtain ⟨w1, hstep, hw1⟩ := specInv_step hw op
    refine ⟨w1, hstep, hw1.2, ?_⟩
    rw [specInv_payloadFinalizations hw1, specInv_payloadFinalizations hw]
    by_cases h0 : owners (specRun [HandleState.owner] ops) = 0
    · simp [h0, owners_specStep_of_zero h0 op]
    · have hpos : 0 < owners (specRun [HandleState.owner] ops) := Nat.pos_of_ne_zero h0
      by_cases h1 : owners (specStep (specRun [HandleState.owner] ops) op) = 0
      · simp [h0, h1, hpos]
      · simp [h0, h1]

/-- Claim C4, evaluated on the code: on a block with `refCount = 1` and
`weakRefCount = 0`, `decrementCounter` brings `refCount` to `0` and executes
`delete ptr` but not `delete this`, whereas `free` on the same block does
execute `delete this`; so after the destructor or `reset()` of the only strong
handle the control block has not been finalized. -/
theorem C4_decrementCounter_keeps_block (p : Nat) :
    decrementCounter { ptr := p, refCount := 1, weakRefCount := 0 }
      = { result := .ok true, block := { ptr := p, refCount := 0, weakRefCount := 0 },
          deletedPtr := true, deletedThis := false } ∧
    (free { ptr := p, refCount := 1, weakRefCount := 0 }).deletedThis = true ∧
    SharedPointer.dtor afterMakeShared.mem ⟨some 0⟩
      = .ok { blocks := [⟨0, 0, 0⟩], deletedBlocks := [], payloads := 1, deletedPayloads := [0] } ∧
    SharedPointer.reset afterMakeShared.mem ⟨some 0⟩
      = .ok (⟨none⟩, { blocks := [⟨0, 0, 0⟩], deletedBlocks := [], payloads := 1,
                       deletedPayloads := [0] }) := by
  refine ⟨?_, ?_, ?_, ?_⟩
  · simp [decrementCounter]
  · simp [free]
  · decide
  · decide

/-- Claim C5, evaluated on the code: for `s = makeShared()` and
`w = WeakPointer(s)`, destroying `s` then `w`, and destroying `w` then `s`,
both end with the payload finalized once, `refCount = 0`, `weakRefCount = -1`
and the control block finalized zero times. -/
theorem C5_block_never_finalized_in_either_order :
    World.empty.run [Op.makeShared, Op.weakOfShared 0, Op.destroyShared 0, Op.destroyWeak 0]
      = .ok { mem := { blocks := [⟨0, 0, -1⟩], deletedBlocks := [], payloads := 1,
                       deletedPayloads := [0] }
              strong := [none], weak := [none] } ∧
    World.empty.run [Op.makeShared, Op.weakOfShared 0, Op.destroyWeak 0, Op.destroyShared 0]
      = .ok { mem := { blocks := [⟨0, 0, -1⟩], deletedBlocks := [], payloads := 1,
                       deletedPayloads := [0] }
              strong := [none], weak := [none] } := by
  decide

/-- Claim C6, evaluated on the code: on every block with `weakRefCount = 0`,
`incrementWeakCounter` returns `false` and leaves `weakRefCount = 0`; so
constructing a `WeakPointer` from the handle returned by `makeShared` leaves
the heap unchanged, with `weakRefCount = 0`. -/
theorem C6_incrementWeakCounter_refuses_at_zero (p : Nat) (n : Int) :
    incrementWeakCounter { ptr := p, refCount := n, weakRefCount := 0 }
      = { result := .ok false, block := { ptr := p, refCount := n, weakRefCount := 0 },
          deletedPtr := false, deletedThis := false } ∧
    WeakPointer.ofShared afterMakeShared.mem ⟨some 0⟩
      = .ok (⟨some 0⟩, { blocks := [⟨0, 1, 0⟩], deletedBlocks := [], payloads := 1,
                         deletedPayloads := [] }) := by
  refine ⟨?_, ?_⟩
  · simp [incrementWeakCounter]
  · decide

/-- Claim C7, evaluated on the code: for `a = makeShared()` and a null `b`, the
assignment `a = b` releases block `0` through `free` (payload and block are
finalized) and leaves `a.m_controlBlock` at the address of that block instead
of null. -/
theorem C7_assign_null_keeps_deleted_block :
    SharedPointer.assign afterMakeShared.mem ⟨some 0⟩ ⟨none⟩
      = .ok (⟨some 0⟩, { blocks := [⟨0, 0, 0⟩], deletedBlocks := [0], payloads := 1,
                         deletedPayloads := [0] }) := by
  decide

/-- Claim C8, evaluated on the code: two runs of public operations after which
control block `0` has been finalized while a live handle still holds its
address.  In the first, `s = makeShared(); w = WeakPointer(s); t = makeShared();
s = t;` strands the weak handle `w`.  In the second, `s = makeShared();
t = makeShared(); t.reset(); s = t;` strands the strong handle `s` itself. -/
theorem C8_block_finalized_under_live_handles :
    World.empty.run [Op.makeShared, Op.weakOfShared 0, Op.makeShared, Op.assignShared 0 1]
      = .ok { mem := { blocks := [⟨0, 0, 0⟩, ⟨1, 2, 0⟩], deletedBlocks := [0], payloads := 2,
                       deletedPayloads := [0] }
              strong := [some ⟨some 1⟩, some ⟨some 1⟩]
              weak := [some ⟨some 0⟩] } ∧
    World.empty.run [Op.makeShared, Op.makeShared, Op.resetShared 1, Op.assignShared 0 1]
      = .ok { mem := { blocks := [⟨0, 0, 0⟩, ⟨1, 0, 0⟩], deletedBlocks := [0], payloads := 2,
                       deletedPayloads := [1, 0] }
              strong := [some ⟨some 0⟩, some ⟨none⟩]
              weak := [] } := by
  decide

/-- Claim C9 (`tryAcquireStrong`).  On a block with `refCount = n ≥ 0`,
`incrementCounter` returns `true` iff `n > 0` and `false` iff `n = 0`; when it
returns `true` the new `refCount` is `n + 1`, when it returns `false` the
`refCount` is `0`; in both cases `weakRefCount` and `ptr` are unchanged and
neither `delete ptr` nor `delete this` is executed. -/
theorem C9_incrementCounter_spec (cb : SharedPointerControlBlock) (h : 0 ≤ cb.refCount) :
    ((incrementCounter cb).result = .ok true ↔ 0 < cb.refCount) ∧
    ((incrementCounter cb).result = .ok false ↔ cb.refCount = 0) ∧
    ((incrementCounter cb).result = .ok true →
      (incrementCounter cb).block.refCount = cb.refCount + 1) ∧
    ((incrementCounter cb).result = .ok false →
      (incrementCounter cb).block.refCount = 0) ∧
    (incrementCounter cb).block.weakRefCount = cb.weakRefCount ∧
    (incrementCounter cb).block.ptr = cb.ptr ∧
    (incrementCounter cb).deletedPtr = false ∧
    (incrementCounter cb).deletedThis = false := by
  by_cases h0 : cb.refCount = 0
  · simp [incrementCounter, h0]
  · have hpos : 0 < cb.refCount := by omega
    simp [incrementCounter, h0, hpos]

/-- Witness of C9 on the block with `ptr = 0`, `refCount = 3`,
`weakRefCount = 0`. -/
theorem C9_incrementCounter_spec_witness :
    (0 : Int) ≤ 3 ∧
    ((incrementCounter ⟨0, 3, 0⟩).result = .ok true ↔ (0 : Int) < 3) ∧
    ((incrementCounter ⟨0, 3, 0⟩).result = .ok false ↔ (3 : Int) = 0) ∧
    ((incrementCounter ⟨0, 3, 0⟩).result = .ok true →
      (incrementCounter ⟨0, 3, 0⟩).block.refCount = 3 + 1) ∧
    ((incrementCounter ⟨0, 3, 0⟩).result = .ok false →
      (incrementCounter ⟨0, 3, 0⟩).block.refCount = 0) ∧
    (incrementCounter ⟨0, 3, 0⟩).block.weakRefCount = 0 ∧
    (incrementCounter ⟨0, 3, 0⟩).block.ptr = 0 ∧
    (incrementCounter ⟨0, 3, 0⟩).deletedPtr = false ∧
    (incrementCounter ⟨0, 3, 0⟩).deletedThis = false :=
  ⟨by decide, C9_incrementCounter_spec ⟨0, 3, 0⟩ (by decide)⟩

/-- Claim C10 (strong double release).  On a block with `refCount = 0`,
`decrementCounter` ends with the thrown `runtime_error` and `free` with the
failed assertion, both leaving the fields unchanged and finalizing nothing; on
a block with `refCount = n > 0` both return normally with `refCount = n - 1`. -/
theorem C10_strong_release_at_zero_faults (cb : SharedPointerControlBlock) :
    (cb.refCount = 0 →
      decrementCounter cb
        = { result := .error Fault.runtimeError, block := cb,
            deletedPtr := false, deletedThis := false } ∧
      free cb
        = { result := .error Fault.assertFailed, block := cb,
            deletedPtr := false, deletedThis := false }) ∧
    (0 < cb.refCount →
      (decrementCounter cb).result = .ok true ∧
      (decrementCounter cb).block.refCount = cb.refCount - 1 ∧
      (free cb).result = .ok () ∧
      (free cb).block.refCount = cb.refCount - 1) := by
  constructor
  · intro h0
    simp [decrementCounter, free, h0]
  · intro hpos
    have h1 : ¬ cb.refCount ≤ 0 := by omega
    refine ⟨by simp [decrementCounter, h1], by simp [decrementCounter, h1], ?_, ?_⟩
    · simp only [free]
      split <;> [skip; split] <;> simp_all
    · simp only [free]
      split <;> [skip; split] <;> simp_all

/-- Witness of C10 on the blocks with `refCount = 0` and with `refCount = 2`. -/
theorem C10_strong_release_at_zero_faults_witness :
    (decrementCounter ⟨0, 0, 1⟩
        = { result := .error Fault.runtimeError, block := ⟨0, 0, 1⟩,
            deletedPtr := false, deletedThis := false } ∧
      free ⟨0, 0, 1⟩
        = { result := .error Fault.assertFailed, block := ⟨0, 0, 1⟩,
            deletedPtr := false, deletedThis := false }) ∧
    ((decrementCounter ⟨0, 2, 1⟩).result = .ok true ∧
      (decrementCounter ⟨0, 2, 1⟩).block.refCount = 2 - 1 ∧
      (free ⟨0, 2, 1⟩).result = .ok () ∧
      (free ⟨0, 2, 1⟩).block.refCount = 2 - 1) :=
  ⟨(C10_strong_release_at_zero_faults ⟨0, 0, 1⟩).1 rfl,
   (C10_strong_release_at_zero_faults ⟨0, 2, 1⟩).2 (by decide)⟩

/-- Claim C11, evaluated on the code: on every block with `weakRefCount = 0`,
`decrementWeakCounter` returns normally and leaves `weakRefCount = -1`, while
`decrementCounter` on a block with `refCount = 0` ends with the thrown
`runtime_error`; so after `s = makeShared()`, `w = WeakPointer(s)` the
destructor of `w` runs without a fault and leaves `weakRefCount = -1`. -/
theorem C11_decrementWeakCounter_below_zero (p : Nat) (n : Int) :
    decrementWeakCounter { ptr := p, refCount := n, weakRefCount := 0 }
      = { result := .ok (), block := { ptr := p, refCount := n, weakRefCount := -1 },
          deletedPtr := false, deletedThis := false } ∧
    (decrementCounter { ptr := p, refCount := 0, weakRefCount := n }).result
      = .error Fault.runtimeError ∧
    World.empty.run [Op.makeShared, Op.weakOfShared 0, Op.destroyWeak 0]
      = .ok { mem := { blocks := [⟨0, 1, -1⟩], deletedBlocks := [], payloads := 1,
                       deletedPayloads := [] }
              strong := [some ⟨some 0⟩], weak := [none] } := by
  refine ⟨?_, ?_, ?_⟩
  · simp [decrementWeakCounter]
  · simp [decrementCounter]
  · decide

/-- Claim C12 (benign denial).  For a weak handle whose control block is alive
with `refCount = 0`, and for a null weak handle, `lock()` returns the null
handle and leaves the heap, hence both counters, unchanged; the boolean test of
the null handle is `false`.  In Scenario B (`s = makeShared()`,
`w = WeakPointer(s)`, destroy `s`, `w.lock()`) the handle returned is null and
the payload has been finalized exactly once. -/
theorem C12_lock_denied_is_null (m : Memory) (a : Nat) (cb : SharedPointerControlBlock)
    (h : m.read a = .ok cb) (h0 : cb.refCount = 0) :
    WeakPointer.lock m { m_controlBlock := some a } = .ok (SharedPointer.default, m) ∧
    WeakPointer.lock m WeakPointer.default = .ok (SharedPointer.default, m) ∧
    SharedPointer.toBool m SharedPointer.default = .ok false ∧
    World.empty.run [Op.makeShared, Op.weakOfShared 0, Op.destroyShared 0, Op.lock 0]
      = .ok { mem := { blocks := [⟨0, 0, 0⟩], deletedBlocks := [], payloads := 1,
                       deletedPayloads := [0] }
              strong := [none, some SharedPointer.default]
              weak := [some ⟨some 0⟩] } ∧
    Memory.payloadFinalizations
      { blocks := [⟨0, 0, 0⟩], deletedBlocks := [], payloads := 1, deletedPayloads := [0] } 0
      = 1 := by
  refine ⟨lock_denied h h0, ?_, ?_, ?_, ?_⟩
  · simp [WeakPointer.lock, WeakPointer.default]
  · simp [SharedPointer.toBool, SharedPointer.default]
  · decide
  · decide

/-- Witness of C12 on the heap left by Scenario B before the `lock()`. -/
theorem C12_lock_denied_is_null_witness :
    WeakPointer.lock
        { blocks := [⟨0, 0, 0⟩], deletedBlocks := [], payloads := 1, deletedPayloads := [0] }
        { m_controlBlock := some 0 }
      = .ok (SharedPointer.default,
          { blocks := [⟨0, 0, 0⟩], deletedBlocks := [], payloads := 1,
            deletedPayloads := [0] }) :=
  (C12_lock_denied_is_null
    { blocks := [⟨0, 0, 0⟩], deletedBlocks := [], payloads := 1, deletedPayloads := [0] }
    0 ⟨0, 0, 0⟩ (by decide) rfl).1

/-- Claim C13 (Scenario A generalised).  For a strong handle `e` on a live
block at address `a` with `refCount = n ≥ 1`, copy construction returns a
handle `e2` with the same `m_controlBlock`, after which `use_count()` of both
is `n + 1` and no finalization has been logged; destroying `e2` then gives
back the heap from before the copy, so `e.use_count()` is `n` again and
neither payload nor block has been finalized. -/
theorem C13_copy_destroy_round_trip (m : Memory) (a : Nat) (cb : SharedPointerControlBlock)
    (h : m.read a = .ok cb) (hn : 1 ≤ cb.refCount) :
    ∃ m1, SharedPointer.copy m { m_controlBlock := some a }
        = .ok ({ m_controlBlock := some a }, m1) ∧
      SharedPointer.use_count m1 { m_controlBlock := some a } = .ok (cb.refCount + 1) ∧
      m1.deletedBlocks = m.deletedBlocks ∧ m1.deletedPayloads = m.deletedPayloads ∧
      SharedPointer.dtor m1 { m_controlBlock := some a } = .ok m ∧
      SharedPointer.use_count m { m_controlBlock := some a } = .ok cb.refCount := by
  obtain ⟨m1, hcopy, hread1, hdb, hdp, hdtor⟩ := copy_then_dtor h hn
  refine ⟨m1, hcopy, ?_, hdb, hdp, hdtor, ?_⟩
  · simp [SharedPointer.use_count, hread1]
  · simp [SharedPointer.use_count, h]

/-- Witness of C13 on the heap right after `makeShared` (Scenario A). -/
theorem C13_copy_destroy_round_trip_witness :
    ∃ m1, SharedPointer.copy afterMakeShared.mem { m_controlBlock := some 0 }
        = .ok ({ m_controlBlock := some 0 }, m1) ∧
      SharedPointer.use_count m1 { m_controlBlock := some 0 } = .ok (1 + 1) ∧
      m1.deletedBlocks = afterMakeShared.mem.deletedBlocks ∧
      m1.deletedPayloads = afterMakeShared.mem.deletedPayloads ∧
      SharedPointer.dtor m1 { m_controlBlock := some 0 } = .ok afterMakeShared.mem ∧
      SharedPointer.use_count afterMakeShared.mem { m_controlBlock := some 0 } = .ok 1 :=
  C13_copy_destroy_round_trip afterMakeShared.mem 0 ⟨0, 1, 0⟩ (by decide) (by decide)

/-- Claim C14 (P4, no resurrection).  Take any heap, any block address `a` and
any sequence of block operations (the five counting members and `lock()`) that
runs without a fault.  If `refCount` of the block is `0` at some point of the
sequence, then it is `0` at every later point. -/
theorem C14_no_resurrection (m : Memory) (a : Nat) (pre post : List BlockOp)
    (m1 m2 : Memory) (hpre : m.runOps a pre = .ok m1) (hzero : m1.refCountAt a = some 0)
    (hpost : m1.runOps a post = .ok m2) :
    m.runOps a (pre ++ post) = .ok m2 ∧ m2.refCountAt a = some 0 := by
  refine ⟨?_, refCount_zero_runOps post a hzero hpost⟩
  clear hzero
  induction pre generalizing m with
  | nil =>
    simp [Memory.runOps] at hpre
    rw [hpre]; exact hpost
  | cons op ops ih =>
    simp only [Memory.runOps, List.cons_append] at hpre ⊢
    cases hs : m.applyOp a op with
    | error e => simp [hs] at hpre
    | ok m3 =>
      simp only [hs] at hpre ⊢
      exact ih m3 hpre

/-- Witness of C14: the constructor state, one `decrementCounter`, then an
attempt of every operation that can run at `refCount = 0`. -/
theorem C14_no_resurrection_witness :
    (ctorMem 0).runOps 0
        ([BlockOp.decrementCounter] ++
          [BlockOp.incrementCounter, BlockOp.lock, BlockOp.incrementWeakCounter,
            BlockOp.decrementWeakCounter])
      = .ok { blocks := [⟨0, 0, -1⟩], deletedBlocks := [], payloads := 1,
              deletedPayloads := [0] } ∧
    Memory.refCountAt
      { blocks := [⟨0, 0, -1⟩], deletedBlocks := [], payloads := 1, deletedPayloads := [0] } 0
      = some 0 :=
  C14_no_resurrection (ctorMem 0) 0 [BlockOp.decrementCounter]
    [BlockOp.incrementCounter, BlockOp.lock, BlockOp.incrementWeakCounter,
      BlockOp.decrementWeakCounter]
    { blocks := [⟨0, 0, 0⟩], deletedBlocks := [], payloads := 1, deletedPayloads := [0] }
    { blocks := [⟨0, 0, -1⟩], deletedBlocks := [], payloads := 1, deletedPayloads := [0] }
    (by decide) (by decide) (by decide)

/-- Claim C15, evaluated on the code.  After `a = makeShared()`,
`SharedPointer b(a)`, `SharedPointer n`, `a = n`, and the destruction of `b`,
the handle `a` is still non-null, on the block at address `0`, which is alive
with `refCount = 0` and its payload finalized.  `a.reset()` then ends with the
thrown `runtime_error`: it releases nothing and does not leave `a` null. -/
theorem C15_reset_throws_on_stale_handle :
    World.empty.run [Op.makeShared, Op.copyShared 0, Op.defaultShared, Op.assignShared 0 2,
        Op.destroyShared 1]
      = .ok { mem := { blocks := [⟨0, 0, 0⟩], deletedBlocks := [], payloads := 1,
                       deletedPayloads := [0] }
              strong := [some ⟨some 0⟩, none, some ⟨none⟩]
              weak := [] } ∧
    SharedPointer.reset
        { blocks := [⟨0, 0, 0⟩], deletedBlocks := [], payloads := 1, deletedPayloads := [0] }
        ⟨some 0⟩ = .error Fault.runtimeError ∧
    World.empty.run [Op.makeShared, Op.copyShared 0, Op.defaultShared, Op.assignShared 0 2,
        Op.destroyShared 1, Op.resetShared 0]
      = .error Fault.runtimeError := by
  decide

/-- Claim C16 (`releaseWeak`).  On a block with `weakRefCount = k ≥ 1`,
`decrementWeakCounter` returns normally with `weakRefCount = k - 1 ≥ 0`, leaves
`refCount` and `ptr` unchanged, does not execute `delete ptr`, and executes
`delete this` if and only if the resulting `weakRefCount` is `0` and `refCount`
is `0`. -/
theorem C16_decrementWeakCounter_spec (cb : SharedPointerControlBlock)
    (hk : 1 ≤ cb.weakRefCount) :
    (decrementWeakCounter cb).result = .ok () ∧
    (decrementWeakCounter cb).block.weakRefCount = cb.weakRefCount - 1 ∧
    0 ≤ (decrementWeakCounter cb).block.weakRefCount ∧
    (decrementWeakCounter cb).block.refCount = cb.refCount ∧
    (decrementWeakCounter cb).block.ptr = cb.ptr ∧
    (decrementWeakCounter cb).deletedPtr = false ∧
    ((decrementWeakCounter cb).deletedThis = true ↔
      (decrementWeakCounter cb).block.weakRefCount = 0 ∧
        (decrementWeakCounter cb).block.refCount = 0) := by
  refine ⟨rfl, rfl, ?_, rfl, rfl, rfl, ?_⟩
  · simp only [decrementWeakCounter]; omega
  · simp [decrementWeakCounter]

/-- Witness of C16 on the block with `refCount = 0` and `weakRefCount = 1`, the
last weak release after the payload is gone. -/
theorem C16_decrementWeakCounter_spec_witness :
    (1 : Int) ≤ 1 ∧
    (decrementWeakCounter ⟨0, 0, 1⟩).result = .ok () ∧
    (decrementWeakCounter ⟨0, 0, 1⟩).block.weakRefCount = 1 - 1 ∧
    0 ≤ (decrementWeakCounter ⟨0, 0, 1⟩).block.weakRefCount ∧
    (decrementWeakCounter ⟨0, 0, 1⟩).block.refCount = 0 ∧
    (decrementWeakCounter ⟨0, 0, 1⟩).block.ptr = 0 ∧
    (decrementWeakCounter ⟨0, 0, 1⟩).deletedPtr = false ∧
    ((decrementWeakCounter ⟨0, 0, 1⟩).deletedThis = true ↔
      (decrementWeakCounter ⟨0, 0, 1⟩).block.weakRefCount = 0 ∧
        (decrementWeakCounter ⟨0, 0, 1⟩).block.refCount = 0) :=
  ⟨by decide, C16_decrementWeakCounter_spec ⟨0, 0, 1⟩ (by decide)⟩

/-- Claim C17, evaluated on the code.  Two threads each destroy a strong
handle of a block with `refCount = 2`, so each runs `decrementCounter`.  In the
schedule where thread `0` runs up to its compare-exchange (`2` to `1`), thread
`1` then runs up to its compare-exchange (`1` to `0`), and only then both
threads execute the test `refCount == 0` of line 81, both find `0` and both
execute `delete ptr`: both calls return, `refCount` ends at `0` with no handle
left, and the payload has been finalized twice.  When thread `0` finishes
before thread `1` starts, the payload is finalized once. -/
theorem C17_concurrent_release_finalizes_twice :
    Concurrent.Config.run
        { shared := { refCount := 2, ptrDeletes := 0 },
          threads := [Concurrent.Thread.start, Concurrent.Thread.start] }
        [0, 0, 0, 1, 1, 1, 0, 0, 1, 1]
      = { shared := { refCount := 0, ptrDeletes := 2 },
          threads := [⟨Concurrent.Pc.returned, 2, 0⟩, ⟨Concurrent.Pc.returned, 1, 0⟩] } ∧
    Concurrent.Config.run
        { shared := { refCount := 2, ptrDeletes := 0 },
          threads := [Concurrent.Thread.start, Concurrent.Thread.start] }
        [0, 0, 0, 0, 1, 1, 1, 1, 1]
      = { shared := { refCount := 0, ptrDeletes := 1 },
          threads := [⟨Concurrent.Pc.returned, 2, 0⟩, ⟨Concurrent.Pc.returned, 1, 0⟩] } := by
  decide

/-- Claim C18 (copy assignment within one control block).  If the distinct
live handles `strong[i]` and `strong[j]` both reference the live block at
address `a` and its `refCount` is `n ≥ 2`, then `strong[i] = strong[j]` runs
without a fault and leaves the whole state as it was: `refCount = n`, both
handles on the block, nothing finalized.  And the self-assignment
`strong[k] = strong[k]` leaves every state as it is. -/
theorem C18_assign_within_one_block (w : World) (i j a : Nat)
    (cb : SharedPointerControlBlock)
    (hi : w.strongAt i = some { m_controlBlock := some a })
    (hj : w.strongAt j = some { m_controlBlock := some a })
    (hij : i ≠ j) (hread : w.mem.read a = .ok cb) (hn : 2 ≤ cb.refCount) :
    w.step (Op.assignShared i j) = .ok w ∧
    ∀ (v : World) (k : Nat), v.step (Op.assignShared k k) = .ok v := by
  constructor
  · have hset : w.strong.set i (some { m_controlBlock := some a }) = w.strong :=
      list_set_self (strongAt_eq_some hi)
    simp [World.step, hi, hj, hij, assign_same_block hread hn, hset]
  · intro v k
    simp only [World.step]
    cases hk : v.strongAt k <;> simp

/-- Witness of C18: `s = makeShared(); SharedPointer t(s); s = t;`. -/
theorem C18_assign_within_one_block_witness :
    World.step
        { mem := { blocks := [⟨0, 2, 0⟩], deletedBlocks := [], payloads := 1,
                   deletedPayloads := [] }
          strong := [some ⟨some 0⟩, some ⟨some 0⟩], weak := [] }
        (Op.assignShared 0 1)
      = .ok { mem := { blocks := [⟨0, 2, 0⟩], deletedBlocks := [], payloads := 1,
                       deletedPayloads := [] }
              strong := [some ⟨some 0⟩, some ⟨some 0⟩], weak := [] } :=
  (C18_assign_within_one_block
    { mem := { blocks := [⟨0, 2, 0⟩], deletedBlocks := [], payloads := 1,
               deletedPayloads := [] }
      strong := [some ⟨some 0⟩, some ⟨some 0⟩], weak := [] }
    0 1 0 ⟨0, 2, 0⟩ (by decide) (by decide) (by decide) (by decide) (by decide)).1

/-- Claim C19 (strong-counter invariant).  After every sequence of block
operations that runs without a fault from the constructor state of a block
with payload `p`, `refCount` is not negative, and `refCount = 0` if and only if
the payload has been finalized; the payload is finalized at most once. -/
theorem C19_strong_counter_invariant (p : Nat) (ops : List BlockOp) (m : Memory)
    (h : (ctorMem p).runOps 0 ops = .ok m) :
    ∃ cb, m.blocks[0]? = some cb ∧ 0 ≤ cb.refCount ∧
      (cb.refCount = 0 ↔ 0 < m.payloadFinalizations p) ∧
      m.payloadFinalizations p ≤ 1 := by
  obtain ⟨cb, hb, _, hnn, hfin⟩ := strongCounterInv_runOps ops (strongCounterInv_ctorMem p) h
  refine ⟨cb, hb, hnn, ?_, ?_⟩
  · rw [hfin]
    by_cases hz : cb.refCount = 0 <;> simp [hz]
  · rw [hfin]
    by_cases hz : cb.refCount = 0 <;> simp [hz]

/-- Witness of C19: acquire once, release twice. -/
theorem C19_strong_counter_invariant_witness :
    ∃ cb, (Memory.blocks { blocks := [⟨0, 0, 0⟩], deletedBlocks := [], payloads := 1,
                           deletedPayloads := [0] })[0]? = some cb ∧
      0 ≤ cb.refCount ∧
      (cb.refCount = 0 ↔ 0 < Memory.payloadFinalizations
        { blocks := [⟨0, 0, 0⟩], deletedBlocks := [], payloads := 1,
          deletedPayloads := [0] } 0) ∧
      Memory.payloadFinalizations
        { blocks := [⟨0, 0, 0⟩], deletedBlocks := [], payloads := 1,
          deletedPayloads := [0] } 0 ≤ 1 :=
  C19_strong_counter_invariant 0
    [BlockOp.incrementCounter, BlockOp.decrementCounter, BlockOp.decrementCounter]
    { blocks := [⟨0, 0, 0⟩], deletedBlocks := [], payloads := 1, deletedPayloads := [0] }
    (by decide)

/-- Claim C20 (the weak counter never becomes positive).  In every state that
a sequence of public handle operations reaches from the empty program, and in
every state that a sequence of block operations reaches from the constructor
state, every control block has `weakRefCount ≤ 0`, so none has `refCount = 0`
together with `weakRefCount > 0`; and `incrementWeakCounter` on a block with
`weakRefCount = 0` returns `false` and changes nothing. -/
theorem C20_weak_counter_never_positive (ops : List Op) (w : World)
    (h : World.empty.run ops = .ok w) (p : Nat) (bops : List BlockOp) (m : Memory)
    (hb : (ctorMem p).runOps 0 bops = .ok m) :
    (∀ cb ∈ w.mem.blocks, cb.weakRefCount ≤ 0 ∧ ¬ (cb.refCount = 0 ∧ 0 < cb.weakRefCount)) ∧
    (∀ cb ∈ m.blocks, cb.weakRefCount ≤ 0 ∧ ¬ (cb.refCount = 0 ∧ 0 < cb.weakRefCount)) ∧
    ∀ cb : SharedPointerControlBlock, cb.weakRefCount = 0 →
      incrementWeakCounter cb
        = { result := .ok false, block := cb, deletedPtr := false, deletedThis := false } := by
  have h1 : w.mem.WeakNonPos :=
    weakNonPos_run ops (w := World.empty) (by intro cb hcb; simp [World.empty, Memory.empty] at hcb) h
  have h2 : m.WeakNonPos :=
    weakNonPos_runOps bops 0 (m := ctorMem p)
      (by intro cb hcb
          simp [ctorMem] at hcb
          rw [hcb]; simp [SharedPointerControlBlock.ctor]) hb
  refine ⟨fun cb hcb => ⟨h1 cb hcb, ?_⟩, fun cb hcb => ⟨h2 cb hcb, ?_⟩, ?_⟩
  · intro hc
    have := h1 cb hcb
    omega
  · intro hc
    have := h2 cb hcb
    omega
  · intro cb hz
    simp [incrementWeakCounter, hz]

/-- Witness of C20: a weak handle is constructed, assigned and destroyed, and
the weak members are called on a block in the constructor state. -/
theorem C20_weak_counter_never_positive_witness :
    (∀ cb ∈ [(⟨0, 1, -1⟩ : SharedPointerControlBlock)],
      cb.weakRefCount ≤ 0 ∧ ¬ (cb.refCount = 0 ∧ 0 < cb.weakRefCount)) ∧
    (∀ cb ∈ [(⟨0, 1, -1⟩ : SharedPointerControlBlock)],
      cb.weakRefCount ≤ 0 ∧ ¬ (cb.refCount = 0 ∧ 0 < cb.weakRefCount)) ∧
    ∀ cb : SharedPointerControlBlock, cb.weakRefCount = 0 →
      incrementWeakCounter cb
        = { result := .ok false, block := cb, deletedPtr := false, deletedThis := false } :=
  C20_weak_counter_never_positive
    [Op.makeShared, Op.weakOfShared 0, Op.assignWeak 0 0, Op.destroyWeak 0]
    { mem := { blocks := [⟨0, 1, -1⟩], deletedBlocks := [], payloads := 1,
               deletedPayloads := [] }
      strong := [some ⟨some 0⟩], weak := [none] }
    (by decide) 0
    [BlockOp.incrementWeakCounter, BlockOp.decrementWeakCounter]
    { blocks := [⟨0, 1, -1⟩], deletedBlocks := [], payloads := 1, deletedPayloads := [] }
    (by decide)

end SharedPtr
